import Mathlib

/-!
Shallow embedding of `xc7/utils/prjxray_form_channels.py` (the node former,
node annotator, node classifier, constant-network builder and TIEOFF hard-pin
rewiring of the prjxray channel-formation pipeline), together with theorems
about the pipeline's data-model invariants.

The SQL tables of the connection database are modelled as Lean lists of rows;
each SQL statement of the source becomes a pure list computation, and each
Python `assert` (or crash on an unexpected `None`) becomes an `Except.error`.
-/

set_option maxHeartbeats 1000000

/-- Classification values assigned to nodes (`NodeClassification` in
`lib.connection_database`, values used by `classify_nodes`). -/
inductive NodeClassification where
  | NULL
  | CHANNEL
  | EDGE_WITH_MUX
  | EDGES_TO_CHANNEL
deriving DecidableEq, Repr

/-- Row of the `wire_in_tile` table: a wire-type of one tile type, optionally
bound to a site pin (`site_pin_pkey`). -/
structure WireInTile where
  pkey : Nat
  tileTypePkey : Nat
  sitePinPkey : Option Nat
deriving DecidableEq, Repr

/-- Row of the `pip_in_tile` table: a pip between two wire-types of one tile
type, with directionality and pseudo flags. -/
structure PipInTile where
  pkey : Nat
  tileTypePkey : Nat
  srcWireInTilePkey : Nat
  destWireInTilePkey : Nat
  isDirectional : Bool
  isPseudo : Bool
deriving DecidableEq, Repr

/-- Row of the `wire` table: one wire instance, living in a physical tile and
referencing its wire-type; `node_pkey` is assigned by `import_nodes`. -/
structure Wire where
  pkey : Nat
  phyTilePkey : Nat
  wireInTilePkey : Nat
  nodePkey : Option Nat
deriving DecidableEq, Repr

/-- Row of the `node` table: classification, pip count, optional site wire and
optional track reference. -/
structure Node where
  pkey : Nat
  classification : Option NodeClassification
  numberPips : Nat
  siteWirePkey : Option Nat
  trackPkey : Option Nat
deriving DecidableEq, Repr

/-- Row of the `edge_with_mux` table inserted by `classify_nodes`. -/
structure EdgeWithMux where
  srcWirePkey : Nat
  destWirePkey : Nat
  pipInTilePkey : Nat
deriving DecidableEq, Repr

/-- Row of the `site_type` table. -/
structure SiteType where
  pkey : Nat
  name : String
deriving DecidableEq, Repr

/-- Row of the `site_pin` table. -/
structure SitePin where
  pkey : Nat
  siteTypePkey : Nat
  name : String
deriving DecidableEq, Repr

/-- The connection database state threaded through the pipeline.  `tiles`
holds the `(grid_x, grid_y)` columns of the `tile` table rows. -/
structure Database where
  wireInTiles : List WireInTile
  pips : List PipInTile
  wires : List Wire
  nodes : List Node
  edgeWithMux : List EdgeWithMux
  siteTypes : List SiteType
  sitePins : List SitePin
  tiles : List (Nat × Nat)
deriving DecidableEq, Repr

/-! ## Node classifier, phase 1 (`classify_nodes`, the three bulk UPDATEs)

The first three statements of `classify_nodes` set the unambiguous
classifications as a function of each node's annotated `site_wire_pkey`
and `number_pips` fields. -/

/-- One node's classification after the three sequential UPDATE statements at
the top of `classify_nodes`: NULL for no-site-wire nodes with at most one pip
and site-wire nodes with no pip, CHANNEL for multi-pip nodes without a site
wire, EDGES_TO_CHANNEL for multi-pip nodes with a site wire. -/
def classifyUnambiguous (n : Node) : Node :=
  let n1 :=
    if (n.siteWirePkey = none ∧ n.numberPips ≤ 1) ∨
        (n.siteWirePkey ≠ none ∧ n.numberPips = 0) then
      { n with classification := some NodeClassification.NULL }
    else n
  let n2 :=
    if 1 < n1.numberPips ∧ n1.siteWirePkey = none then
      { n1 with classification := some NodeClassification.CHANNEL }
    else n1
  if 1 < n2.numberPips ∧ n2.siteWirePkey ≠ none then
    { n2 with classification := some NodeClassification.EDGES_TO_CHANNEL }
  else n2

/-- Phase 1 of `classify_nodes` applied to the whole `node` table. -/
def classifyNodesPhase1 (db : Database) : Database :=
  { db with nodes := db.nodes.map classifyUnambiguous }

theorem classifyUnambiguous_pkey (n : Node) :
    (classifyUnambiguous n).pkey = n.pkey := by
  simp only [classifyUnambiguous]
  split <;> split <;> split <;> rfl

theorem classifyUnambiguous_numberPips (n : Node) :
    (classifyUnambiguous n).numberPips = n.numberPips := by
  simp only [classifyUnambiguous]
  split <;> split <;> split <;> rfl

theorem classifyUnambiguous_siteWirePkey (n : Node) :
    (classifyUnambiguous n).siteWirePkey = n.siteWirePkey := by
  simp only [classifyUnambiguous]
  split <;> split <;> split <;> rfl

/-- C1: the three bulk UPDATEs of `classify_nodes` assign, as a function of a
node's annotated site-wire presence and pip count: NULL when there is no site
wire and at most one pip, or a site wire and no pip; CHANNEL when there are
more than one pip and no site wire; EDGES_TO_CHANNEL when there are more than
one pip and a site wire. -/
theorem c1_unambiguous_classification (n : Node) :
    (((n.siteWirePkey = none ∧ n.numberPips ≤ 1) ∨
        (n.siteWirePkey ≠ none ∧ n.numberPips = 0)) →
      (classifyUnambiguous n).classification = some NodeClassification.NULL) ∧
    ((1 < n.numberPips ∧ n.siteWirePkey = none) →
      (classifyUnambiguous n).classification = some NodeClassification.CHANNEL) ∧
    ((1 < n.numberPips ∧ n.siteWirePkey ≠ none) →
      (classifyUnambiguous n).classification =
        some NodeClassification.EDGES_TO_CHANNEL) := by
  refine ⟨?_, ?_, ?_⟩
  · rintro (⟨hs, hp⟩ | ⟨hs, hp⟩) <;>
      (simp only [classifyUnambiguous]; split_ifs <;> simp_all <;> omega)
  · rintro ⟨hp, hs⟩
    simp only [classifyUnambiguous]
    split_ifs <;> simp_all
  · rintro ⟨hp, hs⟩
    simp only [classifyUnambiguous]
    split_ifs <;> simp_all

/-- Witness for C1 at concrete nodes: an isolated node is NULL, a 3-pip
site-less node is CHANNEL, a 3-pip site node is EDGES_TO_CHANNEL. -/
theorem c1_unambiguous_classification_witness :
    (classifyUnambiguous ⟨1, none, 1, none, none⟩).classification =
        some NodeClassification.NULL ∧
    (classifyUnambiguous ⟨2, none, 3, none, none⟩).classification =
        some NodeClassification.CHANNEL ∧
    (classifyUnambiguous ⟨3, none, 3, some 7, none⟩).classification =
        some NodeClassification.EDGES_TO_CHANNEL :=
  ⟨(c1_unambiguous_classification ⟨1, none, 1, none, none⟩).1
      (Or.inl ⟨rfl, by decide⟩),
   (c1_unambiguous_classification ⟨2, none, 3, none, none⟩).2.1
      ⟨by decide, rfl⟩,
   (c1_unambiguous_classification ⟨3, none, 3, some 7, none⟩).2.2
      ⟨by decide, by decide⟩⟩

/-! ## Node former (`import_nodes`)

`import_nodes` merges the sea of wires into nodes by processing the inter-tile
connection list: each wire maps to `None` or to a shared Python `set` object,
connections merge the two endpoint sets in place (creating fresh singletons for
unassigned endpoints), and at the end every still-unassigned wire becomes a
singleton node.  The shared mutable sets are modelled as a list of groups in
which each wire occurs in at most one group. -/

/-- Disjointness of two groups of wire pkeys. -/
def DisjointGroups (g h : List Nat) : Prop := ∀ w, w ∈ g → w ∉ h

/-- Finds the group (Python `wires[w]` set) holding wire `w`, if any. -/
def findGroup (groups : List (List Nat)) (w : Nat) : Option (List Nat) :=
  groups.find? (fun g => decide (w ∈ g))

/-- Processes one tile connection exactly as the `import_nodes` loop does:
fresh singleton sets for unassigned endpoints, identity test between the two
endpoint sets, in-place union reassigning every member to the merged set. -/
def processConnection (groups : List (List Nat)) (c : Nat × Nat) :
    List (List Nat) :=
  match findGroup groups c.1, findGroup groups c.2 with
  | none, none => (if c.1 = c.2 then [c.1] else [c.1, c.2]) :: groups
  | none, some gb => (c.1 :: gb) :: groups.erase gb
  | some ga, none => (ga ++ [c.2]) :: groups.erase ga
  | some ga, some gb =>
      if ga = gb then groups
      else (ga ++ gb) :: (groups.erase ga).erase gb

/-- The node sets produced by `import_nodes`: the groups after all connections
are processed, plus one singleton node per wire left unassigned. -/
def formNodes (wires : List Nat) (conns : List (Nat × Nat)) :
    List (List Nat) :=
  let groups := conns.foldl processConnection []
  groups ++
    (wires.filter (fun w => (findGroup groups w).isNone)).map (fun w => [w])

/-- Invariant maintained over the connection-processing loop: groups are
nonempty, made of catalog wires, pairwise disjoint, and no group repeats. -/
def GroupsInv (wires : List Nat) (groups : List (List Nat)) : Prop :=
  (∀ g ∈ groups, g ≠ [] ∧ ∀ w ∈ g, w ∈ wires) ∧
    groups.Nodup ∧ groups.Pairwise DisjointGroups

theorem disjointGroups_symm {g h : List Nat} (hd : DisjointGroups g h) :
    DisjointGroups h g := fun w hw hwg => hd w hwg hw

theorem findGroup_eq_none {groups : List (List Nat)} {w : Nat} :
    findGroup groups w = none ↔ ∀ g ∈ groups, w ∉ g := by
  simp [findGroup, List.find?_eq_none]

theorem findGroup_eq_some {groups : List (List Nat)} {w : Nat}
    {g : List Nat} (h : findGroup groups w = some g) : g ∈ groups ∧ w ∈ g :=
  ⟨List.mem_of_find?_eq_some h, by simpa using List.find?_some h⟩

theorem groupsInv_disj {wires : List Nat} {groups : List (List Nat)}
    (inv : GroupsInv wires groups) {g h : List Nat} (hg : g ∈ groups)
    (hh : h ∈ groups) (hne : g ≠ h) : DisjointGroups g h :=
  (inv.2.2.forall (fun _ _ => disjointGroups_symm)) hg hh hne

theorem processConnection_inv {wires : List Nat} {groups : List (List Nat)}
    {c : Nat × Nat} (hc1 : c.1 ∈ wires) (hc2 : c.2 ∈ wires)
    (inv : GroupsInv wires groups) :
    GroupsInv wires (processConnection groups c) := by
  obtain ⟨hmem, hnd, hpw⟩ := inv
  unfold processConnection
  cases hfa : findGroup groups c.1 with
  | none =>
    have hfa' : ∀ g ∈ groups, c.1 ∉ g := findGroup_eq_none.mp hfa
    cases hfb : findGroup groups c.2 with
    | none =>
      have hfb' : ∀ g ∈ groups, c.2 ∉ g := findGroup_eq_none.mp hfb
      have hgm : ∀ w ∈ (if c.1 = c.2 then [c.1] else [c.1, c.2]),
          w = c.1 ∨ w = c.2 := by
        intro w hw
        split at hw <;> simp_all
      refine ⟨?_, ?_, ?_⟩
      · intro g hgmem
        rcases List.mem_cons.mp hgmem with rfl | hg
        · constructor
          · split <;> simp
          · intro w hw
            rcases hgm w hw with rfl | rfl <;> assumption
        · exact hmem g hg
      · refine List.nodup_cons.mpr ⟨?_, hnd⟩
        intro hin
        exact hfa' _ hin (by split <;> simp)
      · refine List.pairwise_cons.mpr ⟨?_, hpw⟩
        intro h hh w hw
        rcases hgm w hw with rfl | rfl
        · exact hfa' h hh
        · exact hfb' h hh
    | some gb =>
      obtain ⟨hgbm, hcb⟩ := findGroup_eq_some hfb
      refine ⟨?_, ?_, ?_⟩
      · intro g hgmem
        rcases List.mem_cons.mp hgmem with rfl | hg
        · refine ⟨by simp, ?_⟩
          rintro w hw
          rcases List.mem_cons.mp hw with rfl | hw
          · exact hc1
          · exact (hmem gb hgbm).2 w hw
        · exact hmem g (List.mem_of_mem_erase hg)
      · refine List.nodup_cons.mpr ⟨?_, hnd.sublist (List.erase_sublist _ _)⟩
        intro hin
        exact hfa' _ (List.mem_of_mem_erase hin) (by simp)
      · refine List.pairwise_cons.mpr
          ⟨?_, hpw.sublist (List.erase_sublist _ _)⟩
        intro h hh w hw
        have hh' : h ≠ gb ∧ h ∈ groups := (hnd.mem_erase_iff).mp hh
        rcases List.mem_cons.mp hw with rfl | hw
        · exact hfa' h hh'.2
        · exact groupsInv_disj ⟨hmem, hnd, hpw⟩ hgbm hh'.2 (Ne.symm hh'.1)
            w hw
  | some ga =>
    obtain ⟨hgam, hca⟩ := findGroup_eq_some hfa
    cases hfb : findGroup groups c.2 with
    | none =>
      have hfb' : ∀ g ∈ groups, c.2 ∉ g := findGroup_eq_none.mp hfb
      refine ⟨?_, ?_, ?_⟩
      · intro g hgmem
        rcases List.mem_cons.mp hgmem with rfl | hg
        · refine ⟨by simp, ?_⟩
          rintro w hw
          rcases List.mem_append.mp hw with hw | hw
          · exact (hmem ga hgam).2 w hw
          · simp only [List.mem_singleton] at hw
            exact hw ▸ hc2
        · exact hmem g (List.mem_of_mem_erase hg)
      · refine List.nodup_cons.mpr ⟨?_, hnd.sublist (List.erase_sublist _ _)⟩
        intro hin
        exact hfb' _ (List.mem_of_mem_erase hin) (by simp)
      · refine List.pairwise_cons.mpr
          ⟨?_, hpw.sublist (List.erase_sublist _ _)⟩
        intro h hh w hw
        have hh' : h ≠ ga ∧ h ∈ groups := (hnd.mem_erase_iff).mp hh
        rcases List.mem_append.mp hw with hw | hw
        · exact groupsInv_disj ⟨hmem, hnd, hpw⟩ hgam hh'.2 (Ne.symm hh'.1)
            w hw
        · simp only [List.mem_singleton] at hw
          exact hw ▸ hfb' h hh'.2
    | some gb =>
      obtain ⟨hgbm, hcb⟩ := findGroup_eq_some hfb
      by_cases hab : ga = gb
      · simp only [hab, if_pos rfl]
        exact ⟨hmem, hnd, hpw⟩
      · simp only [if_neg hab]
        have hndE : (groups.erase ga).Nodup := hnd.sublist (List.erase_sublist _ _)
        have hmemE : ∀ h ∈ (groups.erase ga).erase gb,
            h ≠ ga ∧ h ≠ gb ∧ h ∈ groups := by
          intro h hh
          have h1 : h ≠ gb ∧ h ∈ groups.erase ga := (hndE.mem_erase_iff).mp hh
          have h2 : h ≠ ga ∧ h ∈ groups := (hnd.mem_erase_iff).mp h1.2
          exact ⟨h2.1, h1.1, h2.2⟩
        refine ⟨?_, ?_, ?_⟩
        · intro g hgmem
          rcases List.mem_cons.mp hgmem with rfl | hg
          · refine ⟨?_, ?_⟩
            · intro hgaemp
              have : c.1 ∈ ga ++ gb := List.mem_append.mpr (Or.inl hca)
              rw [hgaemp] at this
              exact absurd this (by simp)
            · intro w hw
              rcases List.mem_append.mp hw with hw | hw
              · exact (hmem ga hgam).2 w hw
              · exact (hmem gb hgbm).2 w hw
          · exact hmem g (hmemE g hg).2.2
        · refine List.nodup_cons.mpr
            ⟨?_, (hndE.sublist (List.erase_sublist _ _))⟩
          intro hin
          obtain ⟨hne1, _, hin'⟩ := hmemE _ hin
          have hdisj : DisjointGroups ga (ga ++ gb) :=
            groupsInv_disj ⟨hmem, hnd, hpw⟩ hgam hin' hne1.symm
          exact hdisj c.1 hca (List.mem_append.mpr (Or.inl hca))
        · refine List.pairwise_cons.mpr
            ⟨?_, (hpw.sublist (List.erase_sublist _ _)).sublist
              (List.erase_sublist _ _)⟩
          intro h hh w hw
          obtain ⟨hne1, hne2, hh'⟩ := hmemE h hh
          rcases List.mem_append.mp hw with hw | hw
          · exact groupsInv_disj ⟨hmem, hnd, hpw⟩ hgam hh' (Ne.symm hne1)
              w hw
          · exact groupsInv_disj ⟨hmem, hnd, hpw⟩ hgbm hh' (Ne.symm hne2)
              w hw

theorem foldl_processConnection_inv {wires : List Nat}
    (conns : List (Nat × Nat)) (groups : List (List Nat))
    (hc : ∀ c ∈ conns, c.1 ∈ wires ∧ c.2 ∈ wires)
    (inv : GroupsInv wires groups) :
    GroupsInv wires (conns.foldl processConnection groups) := by
  induction conns generalizing groups with
  | nil => exact inv
  | cons c cs ih =>
    exact ih _ (fun d hd => hc d (List.mem_cons_of_mem _ hd))
      (processConnection_inv (hc c (List.mem_cons_self _ _)).1
        (hc c (List.mem_cons_self _ _)).2 inv)

theorem countP_groups_eq_zero {groups : List (List Nat)} {w : Nat}
    (h : ∀ g ∈ groups, w ∉ g) :
    groups.countP (fun g => decide (w ∈ g)) = 0 :=
  List.countP_eq_zero.mpr (by simpa using h)

theorem countP_groups_eq_one {groups : List (List Nat)} {w : Nat}
    (hpw : groups.Pairwise DisjointGroups) {g0 : List Nat}
    (hg0 : g0 ∈ groups) (hw : w ∈ g0) :
    groups.countP (fun g => decide (w ∈ g)) = 1 := by
  induction groups with
  | nil => cases hg0
  | cons g gs ih =>
    obtain ⟨hd, hpw'⟩ := List.pairwise_cons.mp hpw
    rcases List.mem_cons.mp hg0 with rfl | hg0'
    · rw [List.countP_cons_of_pos _ _ (by simpa using hw)]
      rw [countP_groups_eq_zero (fun h hh => hd h hh w hw)]
    · have hwg : w ∉ g := fun hwg => hd g0 hg0' w hwg hw
      rw [List.countP_cons_of_neg _ _ (by simpa using hwg)]
      exact ih hpw' hg0'

theorem countP_singleton_nodes {l : List Nat} {w : Nat} :
    (l.map (fun u => [u])).countP (fun g => decide (w ∈ g)) =
      l.countP (fun u => decide (u = w)) := by
  rw [List.countP_map]
  exact List.countP_congr (fun u _ => by simp [Function.comp, eq_comm])

theorem countP_eq_one_of_nodup_mem {l : List Nat} {w : Nat}
    (hnd : l.Nodup) (hm : w ∈ l) :
    l.countP (fun u => decide (u = w)) = 1 := by
  induction l with
  | nil => cases hm
  | cons a l ih =>
    obtain ⟨ha, hnd'⟩ := List.nodup_cons.mp hnd
    rcases List.mem_cons.mp hm with rfl | hm'
    · rw [List.countP_cons_of_pos _ _ (by simp)]
      rw [List.countP_eq_zero.mpr (fun u hu => by
        simp only [decide_eq_true_eq]
        rintro rfl
        exact ha hu)]
    · have hne : a ≠ w := fun h => ha (h ▸ hm')
      rw [List.countP_cons_of_neg _ _ (by simpa using hne)]
      exact ih hnd' hm'

/-- C5: after `import_nodes` processes all inter-tile connections, the node
sets are a total, non-overlapping partition of the wire catalog — every wire
belongs to exactly one node set (singleton wires becoming single-member
nodes), and node sets contain only catalog wires. -/
theorem c5_nodes_partition_wires (wires : List Nat)
    (conns : List (Nat × Nat)) (hnd : wires.Nodup)
    (hc : ∀ c ∈ conns, c.1 ∈ wires ∧ c.2 ∈ wires) :
    (∀ w ∈ wires,
      (formNodes wires conns).countP (fun g => decide (w ∈ g)) = 1) ∧
    ∀ g ∈ formNodes wires conns, ∀ w ∈ g, w ∈ wires := by
  have invNil : GroupsInv wires [] := ⟨by simp, by simp, by simp⟩
  have inv := foldl_processConnection_inv conns [] hc invNil
  set groups := conns.foldl processConnection [] with hgroups
  constructor
  · intro w hw
    unfold formNodes
    rw [List.countP_append]
    cases hf : findGroup groups w with
    | none =>
      rw [countP_groups_eq_zero (findGroup_eq_none.mp hf)]
      rw [countP_singleton_nodes]
      rw [countP_eq_one_of_nodup_mem (hnd.filter _)
        (List.mem_filter.mpr ⟨hw, by simp [hf]⟩)]
    | some g0 =>
      obtain ⟨hg0, hwg0⟩ := findGroup_eq_some hf
      rw [countP_groups_eq_one inv.2.2 hg0 hwg0]
      rw [countP_singleton_nodes]
      rw [List.countP_eq_zero.mpr ?_]
      intro u hu
      simp only [decide_eq_true_eq]
      rintro rfl
      have : (findGroup groups u).isNone := (List.mem_filter.mp hu).2
      rw [hf] at this
      cases this
  · intro g hg w hwg
    unfold formNodes at hg
    rcases List.mem_append.mp hg with hg | hg
    · exact (inv.1 g hg).2 w hwg
    · obtain ⟨u, hu, rfl⟩ := List.mem_map.mp hg
      simp only [List.mem_singleton] at hwg
      exact hwg ▸ (List.mem_filter.mp hu).1

/-- Witness for C5 on a concrete catalog: five wires, connections merging
three of them, yields a partition in which each wire lies in exactly one
node. -/
theorem c5_nodes_partition_wires_witness :
    (formNodes [1, 2, 3, 4, 5] [(1, 2), (2, 3)]).countP
      (fun g => decide (2 ∈ g)) = 1 :=
  (c5_nodes_partition_wires [1, 2, 3, 4, 5] [(1, 2), (2, 3)]
    (by decide) (by decide)).1 2 (by decide)

/-! ## Node annotator (`count_sites_and_pips_on_nodes`)

Counts the site-pin wires per node (aborting unless the maximum per-node
count is exactly 1), records each node's unique site-pin wire, and counts
the directional non-pseudo pips incident on each node's member wires. -/

/-- Fatal error conditions of the pipeline: each constructor is one Python
`assert` (or crash on unpacking an unexpected `None`). -/
inductive PipelineErr where
  | siteCountAssert
  | noPipRow
  | multiplePipRows
  | pipWireMismatch
  | noNeighborWire
  | multipleNeighborWires
  | neighborWireUnassigned
  | noNeighborNode
  | multipleNeighborNodes
  | tieoffCount
  | missingHard1Pin
  | missingHard0Pin
deriving DecidableEq, Repr

/-- True when a pipeline step aborted the run. -/
def isFatal {α : Type} : Except PipelineErr α → Bool
  | Except.error _ => true
  | Except.ok _ => false

/-- Join of `wire_in_tile` rows bearing a site pin with the `wire` rows
instantiating them (the `node_sites` / `site_wires` CTE of
`count_sites_and_pips_on_nodes`). -/
def siteWireJoin (db : Database) : List (Wire × WireInTile) :=
  db.wires.flatMap (fun w =>
    (db.wireInTiles.filter (fun wt =>
      decide (wt.pkey = w.wireInTilePkey ∧ wt.sitePinPkey ≠ none))).map
      (fun wt => (w, wt)))

/-- Number of site-pin wires grouped under node reference `k` (SQL
`GROUP BY wire.node_pkey`, which also groups the NULL reference). -/
def nodeSiteWireGroupCount (db : Database) (k : Option Nat) : Nat :=
  (siteWireJoin db).countP (fun r => decide (r.1.nodePkey = k))

/-- The distinct node references appearing in the site-pin wire join. -/
def siteGroupKeys (db : Database) : List (Option Nat) :=
  ((siteWireJoin db).map (fun r => r.1.nodePkey)).dedup

/-- Per-group site-pin wire counts (the `node_sites.number_site_pins`
column). -/
def siteGroupCounts (db : Database) : List Nat :=
  (siteGroupKeys db).map (fun k => nodeSiteWireGroupCount db k)

/-- SQL aggregate `max(...)`: `NULL` (`none`) over the empty aggregation. -/
def sqlMax : List Nat → Option Nat
  | [] => none
  | x :: xs =>
    match sqlMax xs with
    | none => some x
    | some m => some (max x m)

/-- Row of the join, used both by the pip-count aggregation and by the
disambiguation query of `classify_nodes` (the `wire_in_node` CTE joined with
`pip_in_tile` on directional non-pseudo pips touching a member wire). -/
structure PipRow where
  pipPkey : Nat
  srcWit : Nat
  destWit : Nat
  wirePkey : Nat
  wit : Nat
  phyTile : Nat
deriving DecidableEq, Repr

/-- All (member wire, incident directional non-pseudo pip) join rows of one
node, each carrying the pip's endpoints and the wire's tile. -/
def matchingPipRows (db : Database) (nodePkey : Nat) : List PipRow :=
  db.wires.flatMap (fun w =>
    if w.nodePkey = some nodePkey then
      (db.pips.filter (fun p =>
        p.isDirectional && !p.isPseudo &&
          (decide (p.srcWireInTilePkey = w.wireInTilePkey) ||
            decide (p.destWireInTilePkey = w.wireInTilePkey)))).map
        (fun p => ⟨p.pkey, p.srcWireInTilePkey, p.destWireInTilePkey,
          w.pkey, w.wireInTilePkey, w.phyTilePkey⟩)
    else [])

/-- The pip count aggregated per node by `count_sites_and_pips_on_nodes`. -/
def pipCount (db : Database) (k : Nat) : Nat := (matchingPipRows db k).length

/-- The scalar subquery assigning `node.site_wire_pkey`: the first site-pin
wire owned by the node, if any. -/
def assignSiteWire (db : Database) (n : Node) : Option Nat :=
  ((siteWireJoin db).find?
    (fun r => decide (r.1.nodePkey = some n.pkey))).map (fun r => r.1.pkey)

/-- Embedding of `count_sites_and_pips_on_nodes`: asserts that the maximum
per-node site-pin wire count is exactly 1, then records each node's site
wire and pip count (nodes absent from the pip-count aggregation keep their
previous `number_pips`). -/
def countSitesAndPips (db : Database) : Except PipelineErr Database :=
  if sqlMax (siteGroupCounts db) ≠ some 1 then
    Except.error PipelineErr.siteCountAssert
  else
    Except.ok
      { db with
          nodes := db.nodes.map (fun n =>
            { n with
                siteWirePkey := assignSiteWire db n
                numberPips :=
                  if 0 < pipCount db n.pkey then pipCount db n.pkey
                  else n.numberPips }) }

theorem sqlMax_le_of_mem {l : List Nat} {x : Nat} (h : x ∈ l) :
    ∃ m, sqlMax l = some m ∧ x ≤ m := by
  induction l with
  | nil => cases h
  | cons a l ih =>
    rcases List.mem_cons.mp h with rfl | h'
    · cases hm : sqlMax l with
      | none => exact ⟨x, by simp [sqlMax, hm], Nat.le_refl x⟩
      | some m => exact ⟨max x m, by simp [sqlMax, hm], Nat.le_max_left x m⟩
    · obtain ⟨m, hm, hxm⟩ := ih h'
      exact ⟨max a m, by simp [sqlMax, hm], Nat.le_trans hxm
        (Nat.le_max_right a m)⟩

theorem groupCount_mem_counts {db : Database} {k : Option Nat}
    (h : 0 < nodeSiteWireGroupCount db k) :
    nodeSiteWireGroupCount db k ∈ siteGroupCounts db := by
  obtain ⟨r, hr, hk⟩ := List.countP_pos_iff.mp h
  have hk' : r.1.nodePkey = k := of_decide_eq_true hk
  have : k ∈ siteGroupKeys db := by
    unfold siteGroupKeys
    rw [List.mem_dedup]
    exact List.mem_map.mpr ⟨r, hr, hk'⟩
  exact List.mem_map.mpr ⟨k, this, rfl⟩

/-- C8: the annotator aborts the run when some node owns two or more site-pin
wires, and on success every node reference groups at most one site-pin wire
(so each node records at most one site wire). -/
theorem c8_at_most_one_site_wire (db : Database) (k : Nat) :
    (2 ≤ nodeSiteWireGroupCount db (some k) →
      isFatal (countSitesAndPips db) = true) ∧
    (∀ db2, countSitesAndPips db = Except.ok db2 →
      nodeSiteWireGroupCount db (some k) ≤ 1) := by
  constructor
  · intro h2
    obtain ⟨m, hm, hle⟩ := sqlMax_le_of_mem
      (@groupCount_mem_counts db (some k) (by omega))
    have : sqlMax (siteGroupCounts db) ≠ some 1 := by
      rw [hm]
      intro hcontra
      have : m = 1 := by injection hcontra
      omega
    simp [isFatal, countSitesAndPips, this]
  · intro db2 hok
    by_contra hgt
    have h2 : 2 ≤ nodeSiteWireGroupCount db (some k) := by omega
    obtain ⟨m, hm, hle⟩ := sqlMax_le_of_mem
      (@groupCount_mem_counts db (some k) (by omega))
    have hmax : ¬ sqlMax (siteGroupCounts db) ≠ some 1 := by
      intro hne
      simp [countSitesAndPips, hne] at hok
    rw [hm] at hmax
    have : m = 1 := by
      have := not_not.mp hmax
      injection this
    omega

/-- C9: because the assert compares the maximum site-pin count to exactly 1,
an input in which no wire at all carries a site pin (empty aggregation, SQL
NULL maximum) also aborts the annotator. -/
theorem c9_no_site_wires_aborts (db : Database)
    (h : siteWireJoin db = []) : isFatal (countSitesAndPips db) = true := by
  have hkeys : siteGroupCounts db = [] := by
    simp [siteGroupCounts, siteGroupKeys, h]
  have : sqlMax (siteGroupCounts db) ≠ some 1 := by
    rw [hkeys]
    simp [sqlMax]
  simp [isFatal, countSitesAndPips, this]

/-- Concrete database in which one node owns two site-pin wires. -/
def dbTwoSiteWires : Database :=
  { wireInTiles := [⟨10, 1, some 5⟩, ⟨11, 1, some 6⟩]
    pips := []
    wires := [⟨100, 1, 10, some 1⟩, ⟨101, 1, 11, some 1⟩]
    nodes := [⟨1, none, 0, none, none⟩]
    edgeWithMux := []
    siteTypes := []
    sitePins := []
    tiles := [] }

/-- Concrete database in which the unique node owns exactly one site-pin
wire, so annotation succeeds. -/
def dbOneSiteWire : Database :=
  { wireInTiles := [⟨10, 1, some 5⟩]
    pips := []
    wires := [⟨100, 1, 10, some 1⟩]
    nodes := [⟨1, none, 0, none, none⟩]
    edgeWithMux := []
    siteTypes := []
    sitePins := []
    tiles := [] }

/-- Witness for C8: the two-site-wire database aborts annotation, and on the
successfully annotated database the group count is at most one. -/
theorem c8_at_most_one_site_wire_witness :
    isFatal (countSitesAndPips dbTwoSiteWires) = true ∧
      nodeSiteWireGroupCount dbOneSiteWire (some 1) ≤ 1 :=
  ⟨(c8_at_most_one_site_wire dbTwoSiteWires 1).1 (by decide),
   (c8_at_most_one_site_wire dbOneSiteWire 1).2 _ rfl⟩

/-- Concrete database with a node and wires but no site-pin wire anywhere. -/
def dbNoSiteWires : Database :=
  { wireInTiles := [⟨10, 1, none⟩]
    pips := []
    wires := [⟨100, 1, 10, some 1⟩]
    nodes := [⟨1, none, 0, none, none⟩]
    edgeWithMux := []
    siteTypes := []
    sitePins := []
    tiles := [] }

/-- Witness for C9: annotation aborts on the database without site pins. -/
theorem c9_no_site_wires_aborts_witness :
    isFatal (countSitesAndPips dbNoSiteWires) = true :=
  c9_no_site_wires_aborts dbNoSiteWires rfl

/-! ## Node classifier, phase 2 (`classify_nodes`, ambiguous nodes)

For every node with `number_pips == 1` and a site wire, the classifier
traverses the single incident pip (`LIMIT 1` query plus assertions), finds
the node on the far side, and decides between EDGE_WITH_MUX, a NULL pair, or
EDGES_TO_CHANNEL; the decisions are buffered in lists and applied after the
scan, mux updates first, then EDGES_TO_CHANNEL, then NULL. -/

/-- Decision buffered for one ambiguous node during the classification scan
(an entry of `edge_with_mux`, `null_nodes` — both endpoints — or
`edges_to_channel`). -/
inductive Decision where
  | mux (nodeA nodeB srcWire destWire pip : Nat)
  | nullPair (nodeA nodeB : Nat)
  | toChannel (node : Nat)
deriving DecidableEq, Repr

/-- The ambiguous nodes scanned by `classify_nodes`
(`number_pips == 1 AND site_wire_pkey IS NOT NULL`), with their site wires. -/
def ambiguousList (db : Database) : List (Nat × Nat) :=
  db.nodes.filterMap (fun n =>
    if n.numberPips = 1 then
      match n.siteWirePkey with
      | some s => some (n.pkey, s)
      | none => none
    else none)

/-- The wire-type on the far side of the pip of a disambiguation join row. -/
def otherWit (row : PipRow) : Nat :=
  if row.srcWit = row.wit then row.destWit else row.srcWit

/-- The wire rows matching the far-side wire-type in the same physical tile
(`SELECT node_pkey FROM wire WHERE wire_in_tile_pkey = ? AND
phy_tile_pkey = ?`). -/
def neighborWireRows (db : Database) (row : PipRow) : List Wire :=
  db.wires.filter (fun w =>
    decide (w.wireInTilePkey = otherWit row ∧ w.phyTilePkey = row.phyTile))

/-- The neighbor node-row lookup (`SELECT site_wire_pkey, number_pips FROM
node WHERE pkey = ?` with its two assertions). -/
def lookupNodeRow (nodes : List Node) (k : Nat) :
    Except PipelineErr (Option Nat × Nat) :=
  let nodeRows := nodes.filter (fun m => decide (m.pkey = k))
  match nodeRows.head? with
  | none => Except.error PipelineErr.noNeighborNode
  | some other =>
    if 1 < nodeRows.length then Except.error PipelineErr.multipleNeighborNodes
    else Except.ok (other.siteWirePkey, other.numberPips)

/-- The disambiguation traversal of `classify_nodes` for one ambiguous node:
the `LIMIT 1` pip query with its (vacuous) second-row assertion, the far-side
wire lookup, and the neighbor node lookup.  Returns the used join row, the
neighbor's pkey, and the neighbor's site wire and pip count. -/
def traverseToNeighbor (db : Database) (npkey : Nat) :
    Except PipelineErr (PipRow × Nat × Option Nat × Nat) :=
  let rows := (matchingPipRows db npkey).take 1
  match rows.head? with
  | none => Except.error PipelineErr.noPipRow
  | some row =>
    if rows.tail ≠ [] then Except.error PipelineErr.multiplePipRows
    else if ¬ (row.wit = row.srcWit ∨ row.wit = row.destWit) then
      Except.error PipelineErr.pipWireMismatch
    else
      let nbrRows := neighborWireRows db row
      match nbrRows.head? with
      | none => Except.error PipelineErr.noNeighborWire
      | some nbr =>
        if 1 < nbrRows.length then
          Except.error PipelineErr.multipleNeighborWires
        else
          match nbr.nodePkey with
          | none => Except.error PipelineErr.neighborWireUnassigned
          | some otherPkey =>
            match lookupNodeRow db.nodes otherPkey with
            | Except.error e => Except.error e
            | Except.ok (osw, opips) =>
              Except.ok (row, otherPkey, osw, opips)

/-- The classification decision taken from the neighbor's site wire and pip
count, with the EdgeWithMux endpoints oriented by the pip's declared
source/destination. -/
def decideAmbiguous (npkey siteWirePkey : Nat) (row : PipRow)
    (otherPkey : Nat) (otherSiteWire : Option Nat) (otherPips : Nat) :
    Decision :=
  match otherSiteWire with
  | some osw =>
    if otherPips = 1 then
      if row.srcWit = row.wit then
        Decision.mux npkey otherPkey siteWirePkey osw row.pipPkey
      else
        Decision.mux npkey otherPkey osw siteWirePkey row.pipPkey
    else Decision.toChannel npkey
  | none =>
    if otherPips = 1 then Decision.nullPair npkey otherPkey
    else Decision.toChannel npkey

/-- One iteration of the ambiguous-node scan. -/
def disambiguateNode (db : Database) (npkey siteWirePkey : Nat) :
    Except PipelineErr Decision :=
  match traverseToNeighbor db npkey with
  | Except.error e => Except.error e
  | Except.ok (row, otherPkey, osw, opips) =>
    Except.ok (decideAmbiguous npkey siteWirePkey row otherPkey osw opips)

/-- Runs the scan over the ambiguous-node list, buffering the decisions. -/
def collectDecisions (db : Database) :
    List (Nat × Nat) → Except PipelineErr (List Decision)
  | [] => Except.ok []
  | q :: qs =>
    match disambiguateNode db q.1 q.2 with
    | Except.error e => Except.error e
    | Except.ok d =>
      match collectDecisions db qs with
      | Except.error e => Except.error e
      | Except.ok ds => Except.ok (d :: ds)

/-- Buffered `edge_with_mux` entry: the two nodes of the pair plus the
oriented wire endpoints and the pip. -/
structure MuxEntry where
  nodeA : Nat
  nodeB : Nat
  srcWire : Nat
  destWire : Nat
  pip : Nat
deriving DecidableEq, Repr

/-- The buffered entry for a mux decision. -/
def toMuxEntry (d : Decision) : Option MuxEntry :=
  match d with
  | Decision.mux a b s t p => some ⟨a, b, s, t, p⟩
  | _ => none

/-- The buffered `edge_with_mux` list. -/
def muxEntries (ds : List Decision) : List MuxEntry :=
  ds.filterMap toMuxEntry

/-- The buffered `edges_to_channel` list. -/
def channelNodes (ds : List Decision) : List Nat :=
  ds.filterMap (fun d =>
    match d with
    | Decision.toChannel k => some k
    | _ => none)

/-- The buffered `null_nodes` list (both endpoints of each NULL pair). -/
def nullNodes (ds : List Decision) : List Nat :=
  ds.flatMap (fun d =>
    match d with
    | Decision.nullPair a b => [a, b]
    | _ => [])

/-- SQL `UPDATE node SET classification = ? WHERE pkey = ?`. -/
def setClassification (cls : NodeClassification) (ns : List Node) (k : Nat) :
    List Node :=
  ns.map (fun n =>
    if n.pkey = k then { n with classification := some cls } else n)

/-- SQL `UPDATE node SET classification = ? WHERE pkey IN (?, ?)`. -/
def setClassificationPair (cls : NodeClassification) (ns : List Node)
    (a b : Nat) : List Node :=
  ns.map (fun n =>
    if n.pkey = a ∨ n.pkey = b then { n with classification := some cls }
    else n)

/-- Applies the buffered decisions in the order of `classify_nodes`: mux
pairs (updating both nodes and inserting one `edge_with_mux` row per buffered
entry), then the EDGES_TO_CHANNEL updates, then the NULL updates. -/
def applyDecisions (db : Database) (ds : List Decision) : Database :=
  let nodes1 := (muxEntries ds).foldl
    (fun ns e =>
      setClassificationPair NodeClassification.EDGE_WITH_MUX ns e.nodeA
        e.nodeB)
    db.nodes
  let edges := db.edgeWithMux ++
    (muxEntries ds).map (fun e => EdgeWithMux.mk e.srcWire e.destWire e.pip)
  let nodes2 := (channelNodes ds).foldl
    (setClassification NodeClassification.EDGES_TO_CHANNEL) nodes1
  let nodes3 := (nullNodes ds).foldl
    (setClassification NodeClassification.NULL) nodes2
  { db with nodes := nodes3, edgeWithMux := edges }

/-- Full embedding of `classify_nodes`: the three bulk updates followed by
the ambiguous-node scan and the buffered updates. -/
def classifyNodes (db : Database) : Except PipelineErr Database :=
  let db1 := classifyNodesPhase1 db
  match collectDecisions db1 (ambiguousList db1) with
  | Except.error e => Except.error e
  | Except.ok ds => Except.ok (applyDecisions db1 ds)

theorem phase1_nodes (db : Database) :
    (classifyNodesPhase1 db).nodes = db.nodes.map classifyUnambiguous := rfl

theorem matchingPipRows_phase1 (db : Database) (k : Nat) :
    matchingPipRows (classifyNodesPhase1 db) k = matchingPipRows db k := rfl

theorem neighborWireRows_phase1 (db : Database) (row : PipRow) :
    neighborWireRows (classifyNodesPhase1 db) row =
      neighborWireRows db row := rfl

theorem ambiguousList_phase1 (db : Database) :
    ambiguousList (classifyNodesPhase1 db) = ambiguousList db := by
  unfold ambiguousList
  rw [phase1_nodes, List.filterMap_map]
  congr 1
  funext n
  simp only [Function.comp, classifyUnambiguous_pkey,
    classifyUnambiguous_numberPips, classifyUnambiguous_siteWirePkey]

theorem lookupNodeRow_map_classifyUnambiguous (nodes : List Node) (k : Nat) :
    lookupNodeRow (nodes.map classifyUnambiguous) k =
      lookupNodeRow nodes k := by
  simp only [lookupNodeRow]
  rw [List.filter_map]
  have hp : ((fun m => decide (m.pkey = k)) ∘ classifyUnambiguous) =
      (fun m => decide (m.pkey = k)) := by
    funext n
    simp [Function.comp, classifyUnambiguous_pkey]
  rw [hp, List.head?_map]
  cases h : (nodes.filter (fun m => decide (m.pkey = k))).head? with
  | none => rfl
  | some other =>
    simp only [Option.map_some', List.length_map,
      classifyUnambiguous_siteWirePkey, classifyUnambiguous_numberPips]

theorem traverseToNeighbor_phase1 (db : Database) (k : Nat) :
    traverseToNeighbor (classifyNodesPhase1 db) k =
      traverseToNeighbor db k := by
  unfold traverseToNeighbor
  simp only [matchingPipRows_phase1, neighborWireRows_phase1, phase1_nodes,
    lookupNodeRow_map_classifyUnambiguous]

theorem disambiguateNode_phase1 (db : Database) (a s : Nat) :
    disambiguateNode (classifyNodesPhase1 db) a s =
      disambiguateNode db a s := by
  unfold disambiguateNode
  rw [traverseToNeighbor_phase1]

/-! ## C3: abort behavior of the disambiguation traversal -/

theorem take_one_tail {α : Type} (l : List α) : (l.take 1).tail = [] := by
  cases l <;> rfl

theorem take_one_head? {α : Type} (l : List α) :
    (l.take 1).head? = l.head? := by
  cases l <;> rfl

theorem isFatal_disambiguateNode (db : Database) (k s : Nat) :
    isFatal (disambiguateNode db k s) =
      isFatal (traverseToNeighbor db k) := by
  unfold disambiguateNode
  cases htr : traverseToNeighbor db k with
  | error e => rfl
  | ok t =>
    obtain ⟨row, okey, osw, opips⟩ := t
    rfl

/-- Concrete database in which node 1 carries an annotated pip count of 1 and
a site wire, yet two directional non-pseudo pips match its member wire. -/
def dbTwoMatchingPips : Database :=
  { wireInTiles := [⟨10, 1, some 5⟩, ⟨11, 1, none⟩, ⟨12, 1, none⟩]
    pips := [⟨20, 1, 10, 11, true, false⟩, ⟨21, 1, 10, 12, true, false⟩]
    wires := [⟨100, 7, 10, some 1⟩, ⟨101, 7, 11, some 2⟩,
      ⟨102, 7, 12, some 3⟩]
    nodes := [⟨1, none, 1, some 100, none⟩, ⟨2, none, 1, none, none⟩,
      ⟨3, none, 1, none, none⟩]
    edgeWithMux := []
    siteTypes := []
    sitePins := []
    tiles := [] }

/-- C3 counterexample: node 1 of `dbTwoMatchingPips` is ambiguous (annotated
pip count 1, site wire present) and its disambiguation traversal has two
matching directional non-pseudo pip rows, yet the traversal does not abort —
the `LIMIT 1` query silently uses the first row and the scan succeeds. -/
theorem c3_counterexample_no_abort_on_two_pips :
    (Node.mk 1 none 1 (some 100) none) ∈ dbTwoMatchingPips.nodes ∧
    2 ≤ (matchingPipRows dbTwoMatchingPips 1).length ∧
    disambiguateNode dbTwoMatchingPips 1 100 =
      Except.ok (Decision.nullPair 1 2) :=
  ⟨by decide, by decide, rfl⟩

/-- C3 (amended): the disambiguation traversal aborts fatally when no
directional non-pseudo pip matches the node's member wires, when the
far-side wire lookup finds zero or more than one wire row, and when the
far-side wire is unassigned to a node — but a second matching pip row is not
detected (the pip query is limited to one row). -/
theorem c3_traversal_aborts (db : Database) (k s : Nat) :
    (matchingPipRows db k = [] →
      isFatal (disambiguateNode db k s) = true) ∧
    (∀ row, (matchingPipRows db k).head? = some row →
      (neighborWireRows db row).length ≠ 1 →
      isFatal (disambiguateNode db k s) = true) ∧
    (∀ row nbr, (matchingPipRows db k).head? = some row →
      neighborWireRows db row = [nbr] → nbr.nodePkey = none →
      isFatal (disambiguateNode db k s) = true) := by
  refine ⟨?_, ?_, ?_⟩
  · intro h
    rw [isFatal_disambiguateNode]
    simp [traverseToNeighbor, h, isFatal]
  · intro row hrow hlen
    rw [isFatal_disambiguateNode]
    simp only [traverseToNeighbor]
    rw [take_one_head?, hrow]
    simp only [take_one_tail, ne_eq, not_true_eq_false, if_false,
      ite_not]
    by_cases hw : row.wit = row.srcWit ∨ row.wit = row.destWit
    · simp only [hw, not_true_eq_false, if_false]
      cases hnbr : (neighborWireRows db row).head? with
      | none => simp [isFatal]
      | some nbr =>
        have hne : neighborWireRows db row ≠ [] := by
          intro h0
          rw [h0] at hnbr
          cases hnbr
        have hpos : 0 < (neighborWireRows db row).length :=
          List.length_pos.mpr hne
        have h1 : 1 < (neighborWireRows db row).length := by omega
        simp [h1, isFatal]
    · simp [hw, isFatal]
  · intro row nbr hrow hnbr hnone
    rw [isFatal_disambiguateNode]
    simp only [traverseToNeighbor]
    rw [take_one_head?, hrow]
    simp only [take_one_tail, ne_eq, not_true_eq_false, if_false,
      ite_not]
    by_cases hw : row.wit = row.srcWit ∨ row.wit = row.destWit
    · simp only [hw, not_true_eq_false, if_false]
      rw [hnbr]
      simp [hnone, isFatal]
    · simp [hw, isFatal]

/-- Concrete database where the ambiguous node's pip leads to a wire-type
with no wire row in that tile. -/
def dbNoNeighborWire : Database :=
  { wireInTiles := [⟨10, 1, some 5⟩, ⟨11, 1, none⟩]
    pips := [⟨20, 1, 10, 11, true, false⟩]
    wires := [⟨100, 7, 10, some 1⟩]
    nodes := [⟨1, none, 1, some 100, none⟩]
    edgeWithMux := []
    siteTypes := []
    sitePins := []
    tiles := [] }

/-- Concrete database where the far-side wire exists but is assigned to no
node. -/
def dbUnassignedNeighborWire : Database :=
  { wireInTiles := [⟨10, 1, some 5⟩, ⟨11, 1, none⟩]
    pips := [⟨20, 1, 10, 11, true, false⟩]
    wires := [⟨100, 7, 10, some 1⟩, ⟨101, 7, 11, none⟩]
    nodes := [⟨1, none, 1, some 100, none⟩]
    edgeWithMux := []
    siteTypes := []
    sitePins := []
    tiles := [] }

/-- Witness for the amended C3: concrete runs abort with no matching pip,
with a missing far-side wire, and with an unassigned far-side wire. -/
theorem c3_traversal_aborts_witness :
    isFatal (disambiguateNode dbNoSiteWires 1 0) = true ∧
    isFatal (disambiguateNode dbNoNeighborWire 1 100) = true ∧
    isFatal (disambiguateNode dbUnassignedNeighborWire 1 100) = true :=
  ⟨(c3_traversal_aborts dbNoSiteWires 1 0).1 rfl,
   (c3_traversal_aborts dbNoNeighborWire 1 100).2.1 ⟨20, 10, 11, 100, 10, 7⟩
      rfl (by decide),
   (c3_traversal_aborts dbUnassignedNeighborWire 1 100).2.2
      ⟨20, 10, 11, 100, 10, 7⟩ ⟨101, 7, 11, none⟩ rfl rfl rfl⟩

/-! ## Membership characterizations of the classifier queries -/

theorem mem_of_head?_eq_some {α : Type} {l : List α} {a : α}
    (h : l.head? = some a) : a ∈ l := by
  cases l with
  | nil => cases h
  | cons x xs =>
    injection h with h'
    exact h' ▸ List.mem_cons_self x xs

theorem mem_matchingPipRows {db : Database} {k : Nat} {row : PipRow} :
    row ∈ matchingPipRows db k ↔
      ∃ w ∈ db.wires, ∃ p ∈ db.pips,
        w.nodePkey = some k ∧ p.isDirectional = true ∧ p.isPseudo = false ∧
        (p.srcWireInTilePkey = w.wireInTilePkey ∨
          p.destWireInTilePkey = w.wireInTilePkey) ∧
        row = ⟨p.pkey, p.srcWireInTilePkey, p.destWireInTilePkey, w.pkey,
          w.wireInTilePkey, w.phyTilePkey⟩ := by
  unfold matchingPipRows
  rw [List.mem_flatMap]
  constructor
  · rintro ⟨w, hw, hrow⟩
    by_cases hnk : w.nodePkey = some k
    · rw [if_pos hnk] at hrow
      obtain ⟨p, hp, rfl⟩ := List.mem_map.mp hrow
      have hp' := List.mem_filter.mp hp
      have hb := hp'.2
      simp only [Bool.and_eq_true, Bool.or_eq_true, Bool.not_eq_true',
        decide_eq_true_eq] at hb
      exact ⟨w, hw, p, hp'.1, hnk, hb.1.1, hb.1.2, hb.2, rfl⟩
    · rw [if_neg hnk] at hrow
      cases hrow
  · rintro ⟨w, hw, p, hp, hnk, hdir, hps, hsd, rfl⟩
    refine ⟨w, hw, ?_⟩
    rw [if_pos hnk]
    refine List.mem_map.mpr ⟨p, List.mem_filter.mpr ⟨hp, ?_⟩, rfl⟩
    simp only [Bool.and_eq_true, Bool.or_eq_true, Bool.not_eq_true',
      decide_eq_true_eq]
    refine ⟨⟨hdir, hps⟩, ?_⟩
    rcases hsd with h | h
    · exact Or.inl h
    · exact Or.inr h

theorem mem_neighborWireRows {db : Database} {row : PipRow} {w : Wire} :
    w ∈ neighborWireRows db row ↔
      w ∈ db.wires ∧ w.wireInTilePkey = otherWit row ∧
        w.phyTilePkey = row.phyTile := by
  unfold neighborWireRows
  rw [List.mem_filter]
  simp [decide_eq_true_eq, and_assoc]

theorem lookupNodeRow_ok {nodes : List Node} {k : Nat} {osw : Option Nat}
    {opips : Nat} (h : lookupNodeRow nodes k = Except.ok (osw, opips)) :
    ∃ other ∈ nodes, other.pkey = k ∧ other.siteWirePkey = osw ∧
      other.numberPips = opips := by
  simp only [lookupNodeRow] at h
  split at h
  next => exact Except.noConfusion h
  next other hh =>
    split at h
    next => exact Except.noConfusion h
    next hlen =>
      injection h with h'
      have hmem := List.mem_filter.mp (mem_of_head?_eq_some hh)
      refine ⟨other, hmem.1, of_decide_eq_true hmem.2, ?_, ?_⟩
      · exact congrArg Prod.fst h'
      · exact congrArg Prod.snd h'

theorem traverseToNeighbor_ok {db : Database} {k : Nat} {row : PipRow}
    {okey : Nat} {osw : Option Nat} {opips : Nat}
    (h : traverseToNeighbor db k = Except.ok (row, okey, osw, opips)) :
    row ∈ matchingPipRows db k ∧
    (∃ nbr ∈ neighborWireRows db row, nbr.nodePkey = some okey) ∧
    ∃ other ∈ db.nodes, other.pkey = okey ∧ other.siteWirePkey = osw ∧
      other.numberPips = opips := by
  simp only [traverseToNeighbor] at h
  split at h
  next => exact Except.noConfusion h
  next row0 hr =>
    rw [take_one_head?] at hr
    split at h
    next => exact Except.noConfusion h
    next =>
      split at h
      next => exact Except.noConfusion h
      next =>
        split at h
        next => exact Except.noConfusion h
        next nbr hnbr =>
          split at h
          next => exact Except.noConfusion h
          next =>
            split at h
            next => exact Except.noConfusion h
            next okey0 hnk =>
              split at h
              next => exact Except.noConfusion h
              next osw0 opips0 hlook =>
                injection h with h'
                have hrow : row0 = row := congrArg Prod.fst h'
                have hrest := congrArg Prod.snd h'
                have hokey : okey0 = okey := congrArg Prod.fst hrest
                have hosw : osw0 = osw :=
                  congrArg Prod.fst (congrArg Prod.snd hrest)
                have hopips : opips0 = opips :=
                  congrArg Prod.snd (congrArg Prod.snd hrest)
                subst hrow hokey hosw hopips
                refine ⟨mem_of_head?_eq_some hr, ⟨nbr,
                  mem_of_head?_eq_some hnbr, hnk⟩, ?_⟩
                exact lookupNodeRow_ok hlook

/-! ## Decision collection and application lemmas -/

theorem collectDecisions_ok_mem {db : Database} {l : List (Nat × Nat)}
    {ds : List Decision} (h : collectDecisions db l = Except.ok ds) :
    ∀ q ∈ l, ∀ d, disambiguateNode db q.1 q.2 = Except.ok d → d ∈ ds := by
  induction l generalizing ds with
  | nil =>
    intro q hq
    cases hq
  | cons q0 qs ih =>
    intro q hq d hdq
    simp only [collectDecisions] at h
    cases hd0 : disambiguateNode db q0.1 q0.2 with
    | error e =>
      rw [hd0] at h
      exact Except.noConfusion h
    | ok d0 =>
      rw [hd0] at h
      cases hds : collectDecisions db qs with
      | error e =>
        rw [hds] at h
        exact Except.noConfusion h
      | ok ds' =>
        rw [hds] at h
        injection h with h'
        subst h'
        rcases List.mem_cons.mp hq with rfl | hq'
        · rw [hd0] at hdq
          injection hdq with hd
          exact hd ▸ List.mem_cons_self d0 ds'
        · exact List.mem_cons_of_mem _ (ih hds q hq' d hdq)

theorem setClassification_mem {cls : NodeClassification} {ns : List Node}
    {k : Nat} {n : Node} (h : n ∈ setClassification cls ns k) :
    ∃ m ∈ ns, (n = m ∨ (m.pkey = k ∧
      n = { m with classification := some cls })) := by
  obtain ⟨m, hm, hn⟩ := List.mem_map.mp h
  by_cases hk : m.pkey = k
  · exact ⟨m, hm, Or.inr ⟨hk, by rw [← hn, if_pos hk]⟩⟩
  · exact ⟨m, hm, Or.inl (by rw [← hn, if_neg hk])⟩

theorem foldl_setClassification_same (cls : NodeClassification) (k : Nat)
    (l : List Nat) (ns : List Node)
    (h : ∀ n ∈ ns, n.pkey = k → n.classification = some cls) :
    ∀ n ∈ l.foldl (setClassification cls) ns, n.pkey = k →
      n.classification = some cls := by
  induction l generalizing ns with
  | nil => exact h
  | cons j js ih =>
    intro n hn hk
    refine ih (setClassification cls ns j) ?_ n hn hk
    intro m hm hmk
    obtain ⟨m0, hm0, hcase⟩ := setClassification_mem hm
    rcases hcase with heq | ⟨hm0k, heq⟩
    · rw [heq]
      exact h m0 hm0 (heq ▸ hmk)
    · rw [heq]

theorem foldl_setClassification_establishes (cls : NodeClassification)
    (k : Nat) (l : List Nat) (ns : List Node) (hk : k ∈ l) :
    ∀ n ∈ l.foldl (setClassification cls) ns, n.pkey = k →
      n.classification = some cls := by
  induction l generalizing ns with
  | nil => cases hk
  | cons j js ih =>
    intro n hn hnk
    rcases List.mem_cons.mp hk with rfl | hk'
    · refine foldl_setClassification_same cls k js
        (setClassification cls ns k) ?_ n hn hnk
      intro m hm hmk
      obtain ⟨m1, hm1, hmn⟩ := List.mem_map.mp hm
      by_cases h1 : m1.pkey = k
      · rw [if_pos h1] at hmn
        rw [← hmn]
      · rw [if_neg h1] at hmn
        exact absurd (hmn ▸ hmk) h1
    · exact ih (setClassification cls ns j) hk' n hn hnk

theorem mem_nullNodes_of_nullPair {ds : List Decision} {a b : Nat}
    (h : Decision.nullPair a b ∈ ds) :
    a ∈ nullNodes ds ∧ b ∈ nullNodes ds := by
  constructor <;>
    exact List.mem_flatMap.mpr ⟨Decision.nullPair a b, h, by simp⟩

theorem classifyNodes_ok {db db' : Database}
    (h : classifyNodes db = Except.ok db') :
    ∃ ds, collectDecisions (classifyNodesPhase1 db) (ambiguousList db) =
        Except.ok ds ∧
      db' = applyDecisions (classifyNodesPhase1 db) ds := by
  simp only [classifyNodes, ambiguousList_phase1] at h
  cases hds : collectDecisions (classifyNodesPhase1 db)
      (ambiguousList db) with
  | error e =>
    rw [hds] at h
    exact Except.noConfusion h
  | ok ds =>
    rw [hds] at h
    injection h with h'
    exact ⟨ds, rfl, h'.symm⟩

theorem applyDecisions_nodes (db : Database) (ds : List Decision) :
    (applyDecisions db ds).nodes =
      (nullNodes ds).foldl (setClassification NodeClassification.NULL)
        ((channelNodes ds).foldl
          (setClassification NodeClassification.EDGES_TO_CHANNEL)
          ((muxEntries ds).foldl
            (fun ns e =>
              setClassificationPair NodeClassification.EDGE_WITH_MUX ns
                e.nodeA e.nodeB)
            db.nodes)) := rfl

/-- C4: for an ambiguous node whose neighbor across its single pip has no
site wire and pip count at most one, both the node and the neighbor end the
classifier with classification NULL.  The pip-count annotation hypothesis
`hAnn` reflects the state left by `count_sites_and_pips_on_nodes`; under it
the neighbor's count is at least one, so the source's `== 1` test covers the
whole `≤ 1` case. -/
theorem c4_stub_pair_null (db db' : Database) (A sA B : Nat)
    (row : PipRow) (osw : Option Nat) (opips : Nat)
    (hAmb : (A, sA) ∈ ambiguousList db)
    (htr : traverseToNeighbor db A = Except.ok (row, B, osw, opips))
    (hosw : osw = none) (hopips : opips ≤ 1)
    (hAnn : ∀ n ∈ db.nodes, n.numberPips = pipCount db n.pkey)
    (hok : classifyNodes db = Except.ok db') :
    ∀ n ∈ db'.nodes, n.pkey = A ∨ n.pkey = B →
      n.classification = some NodeClassification.NULL := by
  obtain ⟨hrowmem, ⟨nbr, hnbrmem, hnbrnode⟩, other, hothermem, hopkey,
    hositewire, hopips'⟩ := traverseToNeighbor_ok htr
  -- the neighbor's pip count is at least 1: the traversal's pip is incident
  -- on the neighbor wire, producing a join row for the neighbor node.
  obtain ⟨w, hw, p, hp, hwnode, hdir, hps, hsd, hroweq⟩ :=
    mem_matchingPipRows.mp hrowmem
  obtain ⟨hnbrw, hnbrwit, hnbrphy⟩ := mem_neighborWireRows.mp hnbrmem
  have hnbrrow : (PipRow.mk p.pkey p.srcWireInTilePkey p.destWireInTilePkey
      nbr.pkey nbr.wireInTilePkey nbr.phyTilePkey) ∈ matchingPipRows db B := by
    refine mem_matchingPipRows.mpr ⟨nbr, hnbrw, p, hp, hnbrnode, hdir, hps,
      ?_, rfl⟩
    rw [hnbrwit]
    unfold otherWit
    rw [hroweq]
    by_cases hcase : p.srcWireInTilePkey = w.wireInTilePkey
    · simp only [hcase, if_pos rfl]
      exact Or.inr rfl
    · rw [if_neg ?_]
      · exact Or.inl rfl
      · exact hcase
  have hpipcountB : 1 ≤ pipCount db B := by
    have : matchingPipRows db B ≠ [] := List.ne_nil_of_mem hnbrrow
    have := List.length_pos.mpr this
    unfold pipCount
    omega
  have hopips1 : opips = 1 := by
    have := hAnn other hothermem
    rw [hopips', hopkey] at this
    omega
  -- the decision buffered for node A is the NULL pair (A, B).
  have hdec : disambiguateNode db A sA =
      Except.ok (Decision.nullPair A B) := by
    unfold disambiguateNode
    rw [htr]
    subst hosw hopips1
    rfl
  obtain ⟨ds, hds, hdb'⟩ := classifyNodes_ok hok
  have hdec1 : disambiguateNode (classifyNodesPhase1 db) A sA =
      Except.ok (Decision.nullPair A B) := by
    rw [disambiguateNode_phase1]
    exact hdec
  have hmem : Decision.nullPair A B ∈ ds :=
    collectDecisions_ok_mem hds (A, sA) hAmb _ hdec1
  obtain ⟨hAmemnull, hBmemnull⟩ := mem_nullNodes_of_nullPair hmem
  intro n hn hnAB
  rw [hdb'] at hn
  rw [applyDecisions_nodes] at hn
  rcases hnAB with hnA | hnB
  · exact foldl_setClassification_establishes _ A _ _ hAmemnull n hn hnA
  · exact foldl_setClassification_establishes _ B _ _ hBmemnull n hn hnB

/-- Concrete database with an ambiguous node 1 (site wire, one pip) whose
neighbor node 2 across the pip has no site wire and pip count 1. -/
def dbStubPair : Database :=
  { wireInTiles := [⟨10, 1, some 5⟩, ⟨11, 1, none⟩]
    pips := [⟨20, 1, 10, 11, true, false⟩]
    wires := [⟨100, 7, 10, some 1⟩, ⟨101, 7, 11, some 2⟩]
    nodes := [⟨1, none, 1, some 100, none⟩, ⟨2, none, 1, none, none⟩]
    edgeWithMux := []
    siteTypes := []
    sitePins := []
    tiles := [] }

/-- Witness for C4: running the classifier on `dbStubPair` leaves node 1 (and
its neighbor) classified NULL. -/
theorem c4_stub_pair_null_witness :
    (Node.mk 1 (some NodeClassification.NULL) 1 (some 100)
      none).classification = some NodeClassification.NULL :=
  c4_stub_pair_null dbStubPair
    ((classifyNodes dbStubPair).toOption.getD dbStubPair) 1 100 2
    ⟨20, 10, 11, 100, 10, 7⟩ none 1
    (by decide) rfl rfl (by decide) (by decide) rfl
    (Node.mk 1 (some NodeClassification.NULL) 1 (some 100) none)
    (by decide) (Or.inl rfl)

/-! ## C2: EDGE_WITH_MUX pairs -/

/-- Concrete Scenario C database: nodes 1 and 2 each own a site-pin wire and
have pip count 1, and are connected to each other by the single pip 20. -/
def dbMuxPair : Database :=
  { wireInTiles := [⟨10, 1, some 5⟩, ⟨11, 1, some 6⟩]
    pips := [⟨20, 1, 10, 11, true, false⟩]
    wires := [⟨100, 7, 10, some 1⟩, ⟨101, 7, 11, some 2⟩]
    nodes := [⟨1, none, 1, some 100, none⟩, ⟨2, none, 1, some 101, none⟩]
    edgeWithMux := []
    siteTypes := []
    sitePins := []
    tiles := [] }

/-- C2 counterexample: on the Scenario C pair both nodes are ambiguous and
connected via pip 20, yet the classifier inserts TWO identical
`edge_with_mux` records — one per endpoint of the pair, since both endpoints
are scanned — not exactly one. -/
theorem c2_counterexample_two_records :
    (Node.mk 1 none 1 (some 100) none) ∈ dbMuxPair.nodes ∧
    (Node.mk 2 none 1 (some 101) none) ∈ dbMuxPair.nodes ∧
    traverseToNeighbor dbMuxPair 1 =
      Except.ok (⟨20, 10, 11, 100, 10, 7⟩, 2, some 101, 1) ∧
    traverseToNeighbor dbMuxPair 2 =
      Except.ok (⟨20, 10, 11, 101, 11, 7⟩, 1, some 100, 1) ∧
    Except.map (fun d => d.edgeWithMux) (classifyNodes dbMuxPair) =
      Except.ok [⟨100, 101, 20⟩, ⟨100, 101, 20⟩] :=
  ⟨by decide, by decide, rfl, rfl, rfl⟩

/-- Whether a decision names node `k` among the nodes it will update. -/
def decisionMentions (d : Decision) (k : Nat) : Bool :=
  match d with
  | Decision.mux a b _ _ _ => k == a || k == b
  | Decision.nullPair a b => k == a || k == b
  | Decision.toChannel a => k == a

/-- The pip recorded by a mux decision, if any. -/
def decisionPip (d : Decision) : Option Nat :=
  match d with
  | Decision.mux _ _ _ _ p => some p
  | _ => none

theorem collectDecisions_ok_forall2 {db : Database} {l : List (Nat × Nat)}
    {ds : List Decision} (h : collectDecisions db l = Except.ok ds) :
    List.Forall₂ (fun q d => disambiguateNode db q.1 q.2 = Except.ok d)
      l ds := by
  induction l generalizing ds with
  | nil =>
    simp only [collectDecisions] at h
    injection h with h'
    subst h'
    exact List.Forall₂.nil
  | cons q0 qs ih =>
    simp only [collectDecisions] at h
    cases hd0 : disambiguateNode db q0.1 q0.2 with
    | error e => rw [hd0] at h; exact Except.noConfusion h
    | ok d0 =>
      rw [hd0] at h
      cases hds : collectDecisions db qs with
      | error e => rw [hds] at h; exact Except.noConfusion h
      | ok ds' =>
        rw [hds] at h
        injection h with h'
        subst h'
        exact List.Forall₂.cons hd0 (ih hds)

theorem forall2_mem_right {α β : Type} {R : α → β → Prop} {l : List α}
    {ds : List β} (h : List.Forall₂ R l ds) {d : β} (hd : d ∈ ds) :
    ∃ q ∈ l, R q d := by
  induction h with
  | nil => cases hd
  | cons hR hF ih =>
    rcases List.mem_cons.mp hd with rfl | hd'
    · exact ⟨_, List.mem_cons_self _ _, hR⟩
    · obtain ⟨q, hq, hqd⟩ := ih hd'
      exact ⟨q, List.mem_cons_of_mem _ hq, hqd⟩

theorem forall2_countP {α β : Type} {R : α → β → Prop} {l : List α}
    {ds : List β} (h : List.Forall₂ R l ds) (P : β → Bool) (Q : α → Bool)
    (hPQ : ∀ a ∈ l, ∀ b, R a b → P b = Q a) :
    ds.countP P = l.countP Q := by
  induction h with
  | nil => rfl
  | cons hR hF ih =>
    rename_i a b as bs
    have hab : P b = Q a := hPQ a (List.mem_cons_self _ _) b hR
    have hrest : bs.countP P = as.countP Q :=
      ih (fun x hx y hy => hPQ x (List.mem_cons_of_mem _ hx) y hy)
    cases hQa : Q a with
    | true =>
      rw [List.countP_cons_of_pos _ _ (hab.trans hQa),
        List.countP_cons_of_pos _ _ hQa, hrest]
    | false =>
      rw [List.countP_cons_of_neg _ _ (by rw [hab, hQa]; exact Bool.false_ne_true),
        List.countP_cons_of_neg _ _ (by rw [hQa]; exact Bool.false_ne_true),
        hrest]

theorem countP_or_split {α : Type} (l : List α) (P Q : α → Bool)
    (hdisj : ∀ a ∈ l, ¬(P a = true ∧ Q a = true)) :
    l.countP (fun a => P a || Q a) = l.countP P + l.countP Q := by
  induction l with
  | nil => rfl
  | cons a as ih =>
    have ih' := ih (fun x hx => hdisj x (List.mem_cons_of_mem _ hx))
    have hda := hdisj a (List.mem_cons_self _ _)
    cases hP : P a with
    | true =>
      have hQ : Q a = false := by
        cases hQ : Q a with
        | true => exact absurd ⟨hP, hQ⟩ hda
        | false => rfl
      rw [List.countP_cons_of_pos _ _ (by simp [hP]),
        List.countP_cons_of_pos _ _ hP,
        List.countP_cons_of_neg _ _ (by simp [hQ]), ih']
      omega
    | false =>
      cases hQ : Q a with
      | true =>
        rw [List.countP_cons_of_pos _ _ (by simp [hP, hQ]),
          List.countP_cons_of_neg _ _ (by simp [hP]),
          List.countP_cons_of_pos _ _ hQ, ih']
        omega
      | false =>
        rw [List.countP_cons_of_neg _ _ (by simp [hP, hQ]),
          List.countP_cons_of_neg _ _ (by simp [hP]),
          List.countP_cons_of_neg _ _ (by simp [hQ]), ih']

theorem two_le_length_of_two_mem {α : Type} {l : List α} {a b : α}
    (ha : a ∈ l) (hb : b ∈ l) (hne : a ≠ b) : 2 ≤ l.length := by
  cases l with
  | nil => cases ha
  | cons x xs =>
    cases xs with
    | nil =>
      rcases List.mem_cons.mp ha with rfl | ha' <;>
        rcases List.mem_cons.mp hb with h | hb'
      · exact absurd h.symm hne
      · cases hb'
      · cases ha'
      · cases ha'
    | cons y ys => simp [List.length_cons]

theorem countP_unique {α : Type} {l : List α} {P : α → Bool}
    (hc : l.countP P = 1) {a b : α} (ha : a ∈ l) (hb : b ∈ l)
    (hPa : P a = true) (hPb : P b = true) : a = b := by
  by_contra hne
  have h2 : 2 ≤ (l.filter P).length :=
    two_le_length_of_two_mem (List.mem_filter.mpr ⟨ha, hPa⟩)
      (List.mem_filter.mpr ⟨hb, hPb⟩) hne
  rw [List.countP_eq_length_filter] at hc
  omega

theorem foldl_setPair_same (k : Nat) (l : List MuxEntry) (ns : List Node)
    (h : ∀ n ∈ ns, n.pkey = k →
      n.classification = some NodeClassification.EDGE_WITH_MUX) :
    ∀ n ∈ l.foldl
      (fun ns e =>
        setClassificationPair NodeClassification.EDGE_WITH_MUX ns e.nodeA
          e.nodeB) ns,
      n.pkey = k → n.classification =
        some NodeClassification.EDGE_WITH_MUX := by
  induction l generalizing ns with
  | nil => exact h
  | cons e es ih =>
    intro n hn hk
    refine ih (setClassificationPair _ ns e.nodeA e.nodeB) ?_ n hn hk
    intro m hm hmk
    obtain ⟨m1, hm1, hmn⟩ := List.mem_map.mp hm
    by_cases h1 : m1.pkey = e.nodeA ∨ m1.pkey = e.nodeB
    · rw [if_pos h1] at hmn
      rw [← hmn]
    · rw [if_neg h1] at hmn
      rw [← hmn]
      refine h m1 hm1 ?_
      rw [hmn]
      exact hmk

theorem foldl_setPair_establishes (k : Nat) (l : List MuxEntry)
    (ns : List Node) (he : ∃ e ∈ l, k = e.nodeA ∨ k = e.nodeB) :
    ∀ n ∈ l.foldl
      (fun ns e =>
        setClassificationPair NodeClassification.EDGE_WITH_MUX ns e.nodeA
          e.nodeB) ns,
      n.pkey = k → n.classification =
        some NodeClassification.EDGE_WITH_MUX := by
  induction l generalizing ns with
  | nil =>
    obtain ⟨e, he', _⟩ := he
    cases he'
  | cons e es ih =>
    intro n hn hk
    obtain ⟨e0, he0, hke0⟩ := he
    rcases List.mem_cons.mp he0 with rfl | he0'
    · refine foldl_setPair_same k es
        (setClassificationPair _ ns e0.nodeA e0.nodeB) ?_ n hn hk
      intro m hm hmk
      obtain ⟨m1, hm1, hmn⟩ := List.mem_map.mp hm
      by_cases h1 : m1.pkey = e0.nodeA ∨ m1.pkey = e0.nodeB
      · rw [if_pos h1] at hmn
        rw [← hmn]
      · rw [if_neg h1] at hmn
        exfalso
        apply h1
        have hm1k : m1.pkey = k := by
          rw [hmn]
          exact hmk
        rcases hke0 with hh | hh
        · exact Or.inl (hm1k.trans hh)
        · exact Or.inr (hm1k.trans hh)
    · exact ih (setClassificationPair _ ns e.nodeA e.nodeB)
        ⟨e0, he0', hke0⟩ n hn hk

theorem foldl_setClassification_untouched (cls : NodeClassification)
    (k : Nat) (l : List Nat) (ns : List Node) (hne : ∀ j ∈ l, j ≠ k)
    (c : Option NodeClassification)
    (h : ∀ n ∈ ns, n.pkey = k → n.classification = c) :
    ∀ n ∈ l.foldl (setClassification cls) ns, n.pkey = k →
      n.classification = c := by
  induction l generalizing ns with
  | nil => exact h
  | cons j js ih =>
    intro n hn hk
    refine ih (setClassification cls ns j)
      (fun x hx => hne x (List.mem_cons_of_mem _ hx)) ?_ n hn hk
    intro m hm hmk
    obtain ⟨m1, hm1, hmn⟩ := List.mem_map.mp hm
    by_cases h1 : m1.pkey = j
    · exfalso
      rw [if_pos h1] at hmn
      have hmj : m.pkey = j := by
        rw [← hmn]
        exact h1
      exact hne j (List.mem_cons_self _ _) (hmj.symm.trans hmk)
    · rw [if_neg h1] at hmn
      rw [← hmn]
      refine h m1 hm1 ?_
      rw [hmn]
      exact hmk

theorem countP_muxEntries_pip (p : Nat) (ds : List Decision) :
    (muxEntries ds).countP (fun e => decide (e.pip = p)) =
      ds.countP (fun d => decide (decisionPip d = some p)) := by
  induction ds with
  | nil => rfl
  | cons d ds ih =>
    show (List.filterMap toMuxEntry (d :: ds)).countP _ = _
    rw [List.filterMap_cons]
    cases d with
    | mux a b s t p0 =>
      show ((MuxEntry.mk a b s t p0) ::
        List.filterMap toMuxEntry ds).countP _ = _
      rw [List.countP_cons, List.countP_cons]
      have hic : ih = ih := rfl
      rw [show List.filterMap toMuxEntry ds = muxEntries ds from rfl, ih]
      by_cases hp : p0 = p
      · simp [decisionPip, hp]
      · simp [decisionPip, hp]
    | nullPair a b =>
      show (List.filterMap toMuxEntry ds).countP _ = _
      rw [List.countP_cons,
        show List.filterMap toMuxEntry ds = muxEntries ds from rfl, ih]
      simp [decisionPip]
    | toChannel a =>
      show (List.filterMap toMuxEntry ds).countP _ = _
      rw [List.countP_cons,
        show List.filterMap toMuxEntry ds = muxEntries ds from rfl, ih]
      simp [decisionPip]

theorem applyDecisions_edges (db : Database) (ds : List Decision) :
    (applyDecisions db ds).edgeWithMux =
      db.edgeWithMux ++ (muxEntries ds).map
        (fun e => EdgeWithMux.mk e.srcWire e.destWire e.pip) := rfl

/-- C2 (amended): for a Scenario C pair — two ambiguous nodes connected to
each other by their single pip, each disambiguation yielding the mux decision
with identically oriented endpoints — the classifier reclassifies both nodes
EDGE_WITH_MUX, but inserts one `edge_with_mux` row per scanned endpoint:
exactly TWO rows referencing the connecting pip, both with the same oriented
site-wire endpoints. -/
theorem c2_mux_pair_two_records (db db' : Database)
    (A sA B sB src dst p : Nat)
    (hok : classifyNodes db = Except.ok db')
    (hpre : db.edgeWithMux = [])
    (hA : (A, sA) ∈ ambiguousList db)
    (hB : (B, sB) ∈ ambiguousList db)
    (hcountA : (ambiguousList db).countP (fun q => decide (q.1 = A)) = 1)
    (hcountB : (ambiguousList db).countP (fun q => decide (q.1 = B)) = 1)
    (hAB : A ≠ B)
    (hdA : disambiguateNode db A sA =
      Except.ok (Decision.mux A B src dst p))
    (hdB : disambiguateNode db B sB =
      Except.ok (Decision.mux B A src dst p))
    (hothers : ∀ q ∈ ambiguousList db, q.1 ≠ A → q.1 ≠ B →
      ∀ d, disambiguateNode db q.1 q.2 = Except.ok d →
        decisionPip d ≠ some p ∧ decisionMentions d A = false ∧
          decisionMentions d B = false) :
    (∀ n ∈ db'.nodes, n.pkey = A ∨ n.pkey = B →
      n.classification = some NodeClassification.EDGE_WITH_MUX) ∧
    db'.edgeWithMux.countP (fun r => decide (r.pipInTilePkey = p)) = 2 ∧
    (∀ r ∈ db'.edgeWithMux, r.pipInTilePkey = p →
      r = EdgeWithMux.mk src dst p) := by
  obtain ⟨ds, hds, hdb'⟩ := classifyNodes_ok hok
  have hF : List.Forall₂
      (fun q d => disambiguateNode db q.1 q.2 = Except.ok d)
      (ambiguousList db) ds :=
    (collectDecisions_ok_forall2 hds).imp
      (fun a d h => by rwa [disambiguateNode_phase1] at h)
  have huniqA : ∀ q ∈ ambiguousList db, q.1 = A → q = (A, sA) := by
    intro q hq hq1
    exact countP_unique hcountA hq hA (by simp [hq1]) (by simp)
  have huniqB : ∀ q ∈ ambiguousList db, q.1 = B → q = (B, sB) := by
    intro q hq hq1
    exact countP_unique hcountB hq hB (by simp [hq1]) (by simp)
  have hdsA : Decision.mux A B src dst p ∈ ds :=
    collectDecisions_ok_mem hds (A, sA) hA _
      (by rw [disambiguateNode_phase1]; exact hdA)
  have hdsB : Decision.mux B A src dst p ∈ ds :=
    collectDecisions_ok_mem hds (B, sB) hB _
      (by rw [disambiguateNode_phase1]; exact hdB)
  have hclassify : ∀ d ∈ ds, d = Decision.mux A B src dst p ∨
      d = Decision.mux B A src dst p ∨
      (decisionPip d ≠ some p ∧ decisionMentions d A = false ∧
        decisionMentions d B = false) := by
    intro d hd
    obtain ⟨q, hq, hqd⟩ := forall2_mem_right hF hd
    by_cases hqA : q.1 = A
    · left
      have hqeq : q = (A, sA) := huniqA q hq hqA
      rw [hqeq] at hqd
      have := hdA.symm.trans hqd
      injection this with h'
      exact h'.symm
    · by_cases hqB : q.1 = B
      · right; left
        have hqeq : q = (B, sB) := huniqB q hq hqB
        rw [hqeq] at hqd
        have := hdB.symm.trans hqd
        injection this with h'
        exact h'.symm
      · exact Or.inr (Or.inr (hothers q hq hqA hqB d hqd))
  have hAchan : ∀ j ∈ channelNodes ds, j ≠ A := by
    intro j hj
    obtain ⟨d, hd, hdj⟩ := List.mem_filterMap.mp hj
    rcases hclassify d hd with rfl | rfl | ⟨_, hmA, _⟩
    · exact Option.noConfusion hdj
    · exact Option.noConfusion hdj
    · cases d with
      | mux a b s t p0 => exact Option.noConfusion hdj
      | nullPair a b => exact Option.noConfusion hdj
      | toChannel a =>
        injection hdj with h'
        subst h'
        simp only [decisionMentions, Bool.or_eq_false_iff] at hmA
        intro hja
        exact (beq_eq_false_iff_ne.mp hmA) hja.symm
  have hBchan : ∀ j ∈ channelNodes ds, j ≠ B := by
    intro j hj
    obtain ⟨d, hd, hdj⟩ := List.mem_filterMap.mp hj
    rcases hclassify d hd with rfl | rfl | ⟨_, _, hmB⟩
    · exact Option.noConfusion hdj
    · exact Option.noConfusion hdj
    · cases d with
      | mux a b s t p0 => exact Option.noConfusion hdj
      | nullPair a b => exact Option.noConfusion hdj
      | toChannel a =>
        injection hdj with h'
        subst h'
        simp only [decisionMentions, Bool.or_eq_false_iff] at hmB
        intro hjb
        exact (beq_eq_false_iff_ne.mp hmB) hjb.symm
  have hAnull : ∀ j ∈ nullNodes ds, j ≠ A := by
    intro j hj
    obtain ⟨d, hd, hdj⟩ := List.mem_flatMap.mp hj
    rcases hclassify d hd with rfl | rfl | ⟨_, hmA, _⟩
    · cases hdj
    · cases hdj
    · cases d with
      | mux a b s t p0 => cases hdj
      | toChannel a => cases hdj
      | nullPair a b =>
        simp only [decisionMentions, Bool.or_eq_false_iff] at hmA
        rcases List.mem_cons.mp hdj with rfl | hdj'
        · intro hja
          exact (beq_eq_false_iff_ne.mp hmA.1) hja.symm
        · rcases List.mem_cons.mp hdj' with rfl | hdj''
          · intro hjb
            exact (beq_eq_false_iff_ne.mp hmA.2) hjb.symm
          · cases hdj''
  have hBnull : ∀ j ∈ nullNodes ds, j ≠ B := by
    intro j hj
    obtain ⟨d, hd, hdj⟩ := List.mem_flatMap.mp hj
    rcases hclassify d hd with rfl | rfl | ⟨_, _, hmB⟩
    · cases hdj
    · cases hdj
    · cases d with
      | mux a b s t p0 => cases hdj
      | toChannel a => cases hdj
      | nullPair a b =>
        simp only [decisionMentions, Bool.or_eq_false_iff] at hmB
        rcases List.mem_cons.mp hdj with rfl | hdj'
        · intro hjb
          exact (beq_eq_false_iff_ne.mp hmB.1) hjb.symm
        · rcases List.mem_cons.mp hdj' with rfl | hdj''
          · intro hjb
            exact (beq_eq_false_iff_ne.mp hmB.2) hjb.symm
          · cases hdj''
  have hmuxA : MuxEntry.mk A B src dst p ∈ muxEntries ds :=
    List.mem_filterMap.mpr ⟨Decision.mux A B src dst p, hdsA, rfl⟩
  have hmuxB : MuxEntry.mk B A src dst p ∈ muxEntries ds :=
    List.mem_filterMap.mpr ⟨Decision.mux B A src dst p, hdsB, rfl⟩
  refine ⟨?_, ?_, ?_⟩
  · intro n hn hor
    rw [hdb', applyDecisions_nodes] at hn
    rcases hor with hkA | hkB
    · refine foldl_setClassification_untouched _ A _ _ hAnull _ ?_ n hn hkA
      refine foldl_setClassification_untouched _ A _ _ hAchan _ ?_
      exact foldl_setPair_establishes A _ _
        ⟨MuxEntry.mk A B src dst p, hmuxA, Or.inl rfl⟩
    · refine foldl_setClassification_untouched _ B _ _ hBnull _ ?_ n hn hkB
      refine foldl_setClassification_untouched _ B _ _ hBchan _ ?_
      exact foldl_setPair_establishes B _ _
        ⟨MuxEntry.mk B A src dst p, hmuxB, Or.inl rfl⟩
  · rw [hdb', applyDecisions_edges]
    have hpre1 : (classifyNodesPhase1 db).edgeWithMux = [] := hpre
    rw [hpre1, List.nil_append, List.countP_map]
    have hcong : ((ambiguousList db).countP
        (fun q => decide (q.1 = A) || decide (q.1 = B))) =
        (ambiguousList db).countP (fun q => decide (q.1 = A)) +
          (ambiguousList db).countP (fun q => decide (q.1 = B)) := by
      refine countP_or_split _ _ _ ?_
      rintro q hq ⟨h1, h2⟩
      exact hAB ((of_decide_eq_true h1).symm.trans (of_decide_eq_true h2))
    have hPQ : ∀ q ∈ ambiguousList db, ∀ d,
        disambiguateNode db q.1 q.2 = Except.ok d →
        decide (decisionPip d = some p) =
          (decide (q.1 = A) || decide (q.1 = B)) := by
      intro q hq d hqd
      by_cases hqA : q.1 = A
      · have hqeq : q = (A, sA) := huniqA q hq hqA
        rw [hqeq] at hqd
        have hdd := hdA.symm.trans hqd
        injection hdd with h'
        rw [← h']
        simp [decisionPip, hqA]
      · by_cases hqB : q.1 = B
        · have hqeq : q = (B, sB) := huniqB q hq hqB
          rw [hqeq] at hqd
          have hdd := hdB.symm.trans hqd
          injection hdd with h'
          rw [← h']
          simp [decisionPip, hqA, hqB]
        · obtain ⟨hpip, _, _⟩ := hothers q hq hqA hqB d hqd
          simp [hpip, hqA, hqB]
    calc List.countP
          ((fun r => decide (r.pipInTilePkey = p)) ∘
            fun e => EdgeWithMux.mk e.srcWire e.destWire e.pip)
          (muxEntries ds)
        = List.countP (fun e => decide (e.pip = p)) (muxEntries ds) := by
          refine List.countP_congr ?_
          intro e _
          exact Iff.rfl
      _ = List.countP (fun d => decide (decisionPip d = some p)) ds :=
          countP_muxEntries_pip p ds
      _ = List.countP (fun q => decide (q.1 = A) || decide (q.1 = B))
            (ambiguousList db) := forall2_countP hF _ _ hPQ
      _ = 2 := by rw [hcong, hcountA, hcountB]
  · intro r hr hrp
    rw [hdb', applyDecisions_edges] at hr
    have hpre1 : (classifyNodesPhase1 db).edgeWithMux = [] := hpre
    rw [hpre1, List.nil_append] at hr
    obtain ⟨e, he, hre⟩ := List.mem_map.mp hr
    obtain ⟨d, hd, hde⟩ := List.mem_filterMap.mp he
    rcases hclassify d hd with rfl | rfl | ⟨hpip, _, _⟩
    · injection hde with h'
      rw [← h'] at hre
      rw [← hre]
    · injection hde with h'
      rw [← h'] at hre
      rw [← hre]
    · exfalso
      cases d with
      | mux a b s t p0 =>
        injection hde with h'
        rw [← h'] at hre
        have hp0 : p0 = p := by
          rw [← hre] at hrp
          exact hrp
        exact hpip (by simp [decisionPip, hp0])
      | nullPair a b => exact Option.noConfusion hde
      | toChannel a => exact Option.noConfusion hde

/-- Witness for the amended C2: on the Scenario C pair the classifier
produces exactly two `edge_with_mux` rows referencing pip 20. -/
theorem c2_mux_pair_two_records_witness :
    ((classifyNodes dbMuxPair).toOption.getD dbMuxPair).edgeWithMux.countP
      (fun r => decide (r.pipInTilePkey = 20)) = 2 :=
  (c2_mux_pair_two_records dbMuxPair
    ((classifyNodes dbMuxPair).toOption.getD dbMuxPair)
    1 100 2 101 100 101 20
    rfl rfl (by decide) (by decide) (by decide) (by decide) (by decide)
    rfl rfl
    (by
      intro q hq hqA hqB d hd
      rw [show ambiguousList dbMuxPair = [(1, 100), (2, 101)] from rfl]
        at hq
      rcases List.mem_cons.mp hq with rfl | hq'
      · exact absurd rfl hqA
      · rcases List.mem_cons.mp hq' with rfl | hq''
        · exact absurd rfl hqB
        · cases hq'')).2.1

/-! ## Constant network builder (`create_constant_tracks`) -/

/-- Modelled from the spec: the `node` schema's `number_pips` column default,
used because `create_constant_tracks` inserts the two constant nodes with
`INSERT INTO node(classification) VALUES (?)`, leaving `number_pips` to the
column default; the spec defines a node's pip count as the number of
non-pseudo directed pips incident on a member wire, which is 0 for a node
with no member wires (the schema itself lives in `lib.connection_database`,
outside the analysed sources). -/
def nodeNumberPipsDefault : Nat := 0

/-- Entry returned by `create_track(node, unique_pos)` as far as this
development models it: the node and its position set (the directional
decomposition itself is performed by the external `lib.rr_graph` modules,
outside the analysed sources). -/
structure TrackEntry where
  node : Nat
  pos : List (Nat × Nat)
deriving DecidableEq, Repr

/-- SQLite rowid allocation for the `node` table: one past the largest
existing pkey. -/
def freshNodePkey (db : Database) : Nat :=
  (db.nodes.foldr (fun n m => max n.pkey m) 0) + 1

/-- The position set built by `create_constant_tracks`: every `tile` row's
grid position except those with `grid_x == 0` or `grid_y == 0`. -/
def constantTrackPositions (db : Database) : List (Nat × Nat) :=
  (db.tiles.filter (fun t => decide (¬ (t.1 = 0 ∨ t.2 = 0)))).dedup

/-- The power constant node inserted by `create_constant_tracks`. -/
def vccConstNode (db : Database) : Node :=
  ⟨freshNodePkey db, some NodeClassification.CHANNEL, nodeNumberPipsDefault,
    none, none⟩

/-- The database after the power node insert. -/
def dbAfterVcc (db : Database) : Database :=
  { db with nodes := db.nodes ++ [vccConstNode db] }

/-- The ground constant node inserted by `create_constant_tracks`. -/
def gndConstNode (db : Database) : Node :=
  ⟨freshNodePkey (dbAfterVcc db), some NodeClassification.CHANNEL,
    nodeNumberPipsDefault, none, none⟩

/-- Embedding of `create_constant_tracks`: collects the eligible positions,
inserts the two CHANNEL-classified constant nodes, and returns the two
`create_track` entries sharing the same position set. -/
def createConstantTracks (db : Database) :
    Database × TrackEntry × TrackEntry :=
  ({ dbAfterVcc db with
      nodes := (dbAfterVcc db).nodes ++ [gndConstNode db] },
   ⟨(vccConstNode db).pkey, constantTrackPositions db⟩,
   ⟨(gndConstNode db).pkey, constantTrackPositions db⟩)

/-- C6: the two constant nodes are assigned the same position set, namely
every `tile` grid position except those on the `grid_x = 0` column or the
`grid_y = 0` row. -/
theorem c6_constant_track_positions (db : Database) :
    (createConstantTracks db).2.1.pos = (createConstantTracks db).2.2.pos ∧
    ∀ q : Nat × Nat, q ∈ (createConstantTracks db).2.1.pos ↔
      (q ∈ db.tiles ∧ q.1 ≠ 0 ∧ q.2 ≠ 0) := by
  constructor
  · rfl
  · intro q
    show q ∈ constantTrackPositions db ↔ _
    unfold constantTrackPositions
    rw [List.mem_dedup, List.mem_filter]
    simp [decide_eq_true_eq, not_or]

theorem pkey_le_foldr_max (l : List Node) :
    ∀ n ∈ l, n.pkey ≤ l.foldr (fun n m => max n.pkey m) 0 := by
  induction l with
  | nil => intro n hn; cases hn
  | cons a as ih =>
    intro n hn
    rcases List.mem_cons.mp hn with rfl | hn'
    · exact Nat.le_max_left _ _
    · exact Nat.le_trans (ih n hn') (Nat.le_max_right _ _)

theorem pkey_lt_fresh {db : Database} : ∀ n ∈ db.nodes,
    n.pkey < freshNodePkey db := by
  intro n hn
  unfold freshNodePkey
  have := pkey_le_foldr_max db.nodes n hn
  omega

/-- C10: the two constant nodes enter the `node` table classified CHANNEL
with pip count 0 (the column default) and no member wires, so after
`create_constant_tracks` it is no longer true that every CHANNEL-classified
node has pip count above 1. -/
theorem c10_constant_nodes_are_channel_without_pips (db : Database)
    (hFK : ∀ w ∈ db.wires, ∀ k, w.nodePkey = some k →
      ∃ n ∈ db.nodes, n.pkey = k) :
    ((vccConstNode db) ∈ (createConstantTracks db).1.nodes ∧
      (vccConstNode db).pkey = (createConstantTracks db).2.1.node ∧
      (vccConstNode db).classification = some NodeClassification.CHANNEL ∧
      (vccConstNode db).numberPips = 0 ∧
      ∀ w ∈ (createConstantTracks db).1.wires,
        w.nodePkey ≠ some (vccConstNode db).pkey) ∧
    ((gndConstNode db) ∈ (createConstantTracks db).1.nodes ∧
      (gndConstNode db).pkey = (createConstantTracks db).2.2.node ∧
      (gndConstNode db).classification = some NodeClassification.CHANNEL ∧
      (gndConstNode db).numberPips = 0 ∧
      ∀ w ∈ (createConstantTracks db).1.wires,
        w.nodePkey ≠ some (gndConstNode db).pkey) ∧
    ¬ (∀ n ∈ (createConstantTracks db).1.nodes,
        n.classification = some NodeClassification.CHANNEL →
          1 < n.numberPips) := by
  have hnodes : (createConstantTracks db).1.nodes =
      (db.nodes ++ [vccConstNode db]) ++ [gndConstNode db] := rfl
  have hwires : (createConstantTracks db).1.wires = db.wires := rfl
  have hvmem : (vccConstNode db) ∈ (createConstantTracks db).1.nodes := by
    rw [hnodes]
    exact List.mem_append.mpr (Or.inl (List.mem_append.mpr (Or.inr
      (List.mem_singleton.mpr rfl))))
  have hgmem : (gndConstNode db) ∈ (createConstantTracks db).1.nodes := by
    rw [hnodes]
    exact List.mem_append.mpr (Or.inr (List.mem_singleton.mpr rfl))
  refine ⟨⟨hvmem, rfl, rfl, rfl, ?_⟩, ⟨hgmem, rfl, rfl, rfl, ?_⟩, ?_⟩
  · intro w hw hcontra
    rw [hwires] at hw
    obtain ⟨n, hn, hnk⟩ := hFK w hw _ hcontra
    have := pkey_lt_fresh n hn
    rw [hnk] at this
    show False
    have hv : (vccConstNode db).pkey = freshNodePkey db := rfl
    omega
  · intro w hw hcontra
    rw [hwires] at hw
    obtain ⟨n, hn, hnk⟩ := hFK w hw _ hcontra
    have hmem1 : n ∈ (dbAfterVcc db).nodes :=
      List.mem_append.mpr (Or.inl hn)
    have := pkey_lt_fresh n hmem1
    rw [hnk] at this
    show False
    have hg : (gndConstNode db).pkey = freshNodePkey (dbAfterVcc db) := rfl
    omega
  · intro hall
    have := hall (vccConstNode db) hvmem rfl
    have h0 : (vccConstNode db).numberPips = 0 := rfl
    omega

/-- Concrete database (no wires) for exercising the constant-node insert. -/
def dbConstWitness : Database :=
  { wireInTiles := []
    pips := []
    wires := []
    nodes := [⟨1, some NodeClassification.CHANNEL, 3, none, none⟩]
    edgeWithMux := []
    siteTypes := []
    sitePins := []
    tiles := [(0, 0), (1, 1), (2, 1)] }

/-- Witness for C10: after inserting the constant nodes, the database has a
CHANNEL node with pip count 0. -/
theorem c10_constant_nodes_are_channel_without_pips_witness :
    ¬ (∀ n ∈ (createConstantTracks dbConstWitness).1.nodes,
        n.classification = some NodeClassification.CHANNEL →
          1 < n.numberPips) :=
  (c10_constant_nodes_are_channel_without_pips dbConstWitness
    (fun w hw => absurd hw (List.not_mem_nil w))).2.2

/-! ## Hard-pin rewiring (`connect_hardpins_to_constant_network`) -/

/-- The unique TIEOFF site-type row (`assert len(results) == 1`). -/
def findTieoff (db : Database) : Option SiteType :=
  match db.siteTypes.filter (fun st => decide (st.name = "TIEOFF")) with
  | [st] => some st
  | _ => none

/-- The TIEOFF site pin of the given name (`HARD1` or `HARD0`); the Python
crashes if the row is missing. -/
def findHardPin (db : Database) (pinName : String) : Option SitePin :=
  (findTieoff db).bind (fun st =>
    db.sitePins.find?
      (fun sp => decide (sp.siteTypePkey = st.pkey ∧ sp.name = pinName)))

/-- The `wire_in_tile` rows bound to the given site pin. -/
def pinWits (db : Database) (pinPkey : Nat) : List WireInTile :=
  db.wireInTiles.filter (fun wt => decide (wt.sitePinPkey = some pinPkey))

/-- One `UPDATE node SET track_pkey = ? WHERE pkey IN (SELECT node_pkey FROM
wire WHERE wire_in_tile_pkey = ?)` statement. -/
def setTrackForWit (wires : List Wire) (witPkey track : Nat)
    (ns : List Node) : List Node :=
  ns.map (fun n =>
    if wires.any (fun w =>
        decide (w.wireInTilePkey = witPkey ∧ w.nodePkey = some n.pkey)) then
      { n with trackPkey := some track }
    else n)

/-- Embedding of `connect_hardpins_to_constant_network`: asserts the unique
TIEOFF site type, looks up the HARD1 pin and retargets every node owning a
wire of a HARD1-bound wire-type to the power track, then does the same for
HARD0 and the ground track. -/
def connectHardpinsToConstantNetwork (db : Database)
    (vccTrack gndTrack : Nat) : Except PipelineErr Database :=
  match findTieoff db with
  | none => Except.error PipelineErr.tieoffCount
  | some _ =>
    match findHardPin db "HARD1" with
    | none => Except.error PipelineErr.missingHard1Pin
    | some vccPin =>
      let nodes1 := (pinWits db vccPin.pkey).foldl
        (fun ns wt => setTrackForWit db.wires wt.pkey vccTrack ns) db.nodes
      match findHardPin db "HARD0" with
      | none => Except.error PipelineErr.missingHard0Pin
      | some gndPin =>
        let nodes2 := (pinWits db gndPin.pkey).foldl
          (fun ns wt => setTrackForWit db.wires wt.pkey gndTrack ns) nodes1
        Except.ok { db with nodes := nodes2 }

/-- A wire is bound to a site pin when its wire-type row carries that pin. -/
def boundToPin (db : Database) (w : Wire) (pinPkey : Nat) : Prop :=
  ∃ wt ∈ db.wireInTiles, wt.pkey = w.wireInTilePkey ∧
    wt.sitePinPkey = some pinPkey

/-- Number of site-pin wires owned by node reference `k` (wires whose
wire-type row carries any site pin). -/
def nodeSitePinWireCount (db : Database) (k : Nat) : Nat :=
  db.wires.countP (fun w =>
    decide (w.nodePkey = some k) &&
      db.wireInTiles.any
        (fun wt => decide (wt.pkey = w.wireInTilePkey ∧
          wt.sitePinPkey ≠ none)))

theorem foldl_setTrack_same (wires : List Wire) (track k : Nat)
    (l : List WireInTile) (ns : List Node)
    (h : ∀ n ∈ ns, n.pkey = k → n.trackPkey = some track) :
    ∀ n ∈ l.foldl
      (fun ns wt => setTrackForWit wires wt.pkey track ns) ns,
      n.pkey = k → n.trackPkey = some track := by
  induction l generalizing ns with
  | nil => exact h
  | cons wt wts ih =>
    intro n hn hk
    refine ih (setTrackForWit wires wt.pkey track ns) ?_ n hn hk
    intro m hm hmk
    obtain ⟨m1, hm1, hmn⟩ := List.mem_map.mp hm
    by_cases h1 : wires.any (fun w =>
        decide (w.wireInTilePkey = wt.pkey ∧ w.nodePkey = some m1.pkey))
    · rw [if_pos h1] at hmn
      rw [← hmn]
    · rw [if_neg h1] at hmn
      rw [← hmn]
      refine h m1 hm1 ?_
      rw [hmn]
      exact hmk

theorem foldl_setTrack_establishes (wires : List Wire) (track k : Nat)
    (l : List WireInTile) (ns : List Node)
    (he : ∃ wt ∈ l, ∃ w ∈ wires, w.wireInTilePkey = wt.pkey ∧
      w.nodePkey = some k) :
    ∀ n ∈ l.foldl
      (fun ns wt => setTrackForWit wires wt.pkey track ns) ns,
      n.pkey = k → n.trackPkey = some track := by
  induction l generalizing ns with
  | nil =>
    obtain ⟨wt, hwt, _⟩ := he
    cases hwt
  | cons wt wts ih =>
    intro n hn hk
    obtain ⟨wt0, hwt0, w, hw, hwit, hwk⟩ := he
    rcases List.mem_cons.mp hwt0 with rfl | hwt0'
    · refine foldl_setTrack_same wires track k wts
        (setTrackForWit wires wt0.pkey track ns) ?_ n hn hk
      intro m hm hmk
      obtain ⟨m1, hm1, hmn⟩ := List.mem_map.mp hm
      by_cases h1 : wires.any (fun w =>
          decide (w.wireInTilePkey = wt0.pkey ∧ w.nodePkey = some m1.pkey))
      · rw [if_pos h1] at hmn
        rw [← hmn]
      · exfalso
        apply h1
        rw [if_neg h1] at hmn
        rw [List.any_eq_true]
        refine ⟨w, hw, ?_⟩
        have hm1k : m1.pkey = k := by
          rw [hmn]
          exact hmk
        rw [hm1k]
        exact decide_eq_true ⟨hwit, hwk⟩
    · exact ih (setTrackForWit wires wt.pkey track ns)
        ⟨wt0, hwt0', w, hw, hwit, hwk⟩ n hn hk

theorem foldl_setTrack_untouched (wires : List Wire) (track k : Nat)
    (l : List WireInTile) (ns : List Node)
    (hne : ∀ wt ∈ l, ∀ w ∈ wires, ¬ (w.wireInTilePkey = wt.pkey ∧
      w.nodePkey = some k))
    (c : Option Nat) (h : ∀ n ∈ ns, n.pkey = k → n.trackPkey = c) :
    ∀ n ∈ l.foldl
      (fun ns wt => setTrackForWit wires wt.pkey track ns) ns,
      n.pkey = k → n.trackPkey = c := by
  induction l generalizing ns with
  | nil => exact h
  | cons wt wts ih =>
    intro n hn hk
    refine ih (setTrackForWit wires wt.pkey track ns)
      (fun x hx => hne x (List.mem_cons_of_mem _ hx)) ?_ n hn hk
    intro m hm hmk
    obtain ⟨m1, hm1, hmn⟩ := List.mem_map.mp hm
    by_cases h1 : wires.any (fun w =>
        decide (w.wireInTilePkey = wt.pkey ∧ w.nodePkey = some m1.pkey))
    · exfalso
      obtain ⟨w, hw, hwd⟩ := List.any_eq_true.mp h1
      have hm1k : m1.pkey = k := by
        have hmp : m.pkey = m1.pkey := by
          rw [← hmn, if_pos h1]
        rw [← hmp]
        exact hmk
      rw [hm1k] at hwd
      exact hne wt (List.mem_cons_self _ _) w hw (of_decide_eq_true hwd)
    · rw [if_neg h1] at hmn
      rw [← hmn]
      refine h m1 hm1 ?_
      rw [hmn]
      exact hmk

theorem foldl_setTrack_erase (wires : List Wire) (track : Nat)
    (l : List WireInTile) (ns : List Node) :
    (l.foldl (fun ns wt => setTrackForWit wires wt.pkey track ns) ns).map
        (fun n => { n with trackPkey := none }) =
      ns.map (fun n => { n with trackPkey := none }) := by
  induction l generalizing ns with
  | nil => rfl
  | cons wt wts ih =>
    rw [List.foldl_cons, ih]
    unfold setTrackForWit
    rw [List.map_map]
    refine List.map_congr_left ?_
    intro n _
    by_cases h1 : wires.any (fun w =>
        decide (w.wireInTilePkey = wt.pkey ∧ w.nodePkey = some n.pkey))
    · simp only [Function.comp, if_pos h1]
    · simp only [Function.comp, if_neg h1]

theorem nodup_map_ne {α β : Type} {l : List α} {f : α → β}
    (h : (l.map f).Nodup) {a b : α} (ha : a ∈ l) (hb : b ∈ l)
    (hne : a ≠ b) : f a ≠ f b := by
  induction l with
  | nil => cases ha
  | cons x xs ih =>
    rw [List.map_cons, List.nodup_cons] at h
    rcases List.mem_cons.mp ha with rfl | ha' <;>
      rcases List.mem_cons.mp hb with hbx | hb'
    · exact absurd hbx.symm hne
    · intro hf
      exact h.1 (hf ▸ List.mem_map_of_mem f hb')
    · intro hf
      rw [hbx] at hf
      exact h.1 (hf ▸ List.mem_map_of_mem f ha')
    · exact ih h.2 ha' hb'

/-- The node table produced by the two hard-pin UPDATE passes. -/
def hardpinNodes (db : Database) (vp gp : SitePin)
    (vccTrack gndTrack : Nat) : List Node :=
  (pinWits db gp.pkey).foldl
    (fun ns wt => setTrackForWit db.wires wt.pkey gndTrack ns)
    ((pinWits db vp.pkey).foldl
      (fun ns wt => setTrackForWit db.wires wt.pkey vccTrack ns)
      db.nodes)

/-- C7: after the hard-pin rewiring succeeds, every node owning a wire bound
to the TIEOFF HARD1 pin points at the power track and every node owning a
wire bound to the TIEOFF HARD0 pin points at the ground track (under the
annotator's one-site-pin-wire-per-node invariant the two sets of nodes are
disjoint, so each such node gets exactly one of the two constant tracks);
the rewiring changes only `track_pkey` — the `wire` table, and every other
node column, are untouched. -/
theorem c7_hardpins_to_constant_tracks (db db' : Database)
    (vccTrack gndTrack : Nat) (vp gp : SitePin)
    (hvp : findHardPin db "HARD1" = some vp)
    (hgp : findHardPin db "HARD0" = some gp)
    (hok : connectHardpinsToConstantNetwork db vccTrack gndTrack =
      Except.ok db')
    (hwitN : (db.wireInTiles.map (fun wt => wt.pkey)).Nodup)
    (hpinN : (db.sitePins.map (fun sp => sp.pkey)).Nodup)
    (hsite : ∀ k, nodeSitePinWireCount db k ≤ 1) :
    (∀ n ∈ db'.nodes,
      (∃ w ∈ db.wires, w.nodePkey = some n.pkey ∧
        boundToPin db w vp.pkey) →
      n.trackPkey = some vccTrack) ∧
    (∀ n ∈ db'.nodes,
      (∃ w ∈ db.wires, w.nodePkey = some n.pkey ∧
        boundToPin db w gp.pkey) →
      n.trackPkey = some gndTrack) ∧
    db'.wires = db.wires ∧
    db'.nodes.map (fun n => { n with trackPkey := none }) =
      db.nodes.map (fun n => { n with trackPkey := none }) := by
  have htwo : ∃ st, findTieoff db = some st := by
    cases h : findTieoff db with
    | none =>
      unfold findHardPin at hvp
      rw [h] at hvp
      exact Option.noConfusion hvp
    | some st => exact ⟨st, rfl⟩
  obtain ⟨st, hst⟩ := htwo
  have hdb' : db' =
      { db with nodes := hardpinNodes db vp gp vccTrack gndTrack } := by
    unfold connectHardpinsToConstantNetwork at hok
    rw [hst, hvp, hgp] at hok
    injection hok with h'
    exact h'.symm
  have hvpP : vp ∈ db.sitePins ∧ vp.siteTypePkey = st.pkey ∧
      vp.name = "HARD1" := by
    unfold findHardPin at hvp
    rw [hst] at hvp
    simp only [Option.bind] at hvp
    have hfs0 := List.find?_some hvp
    exact ⟨List.mem_of_find?_eq_some hvp, of_decide_eq_true hfs0⟩
  have hgpP : gp ∈ db.sitePins ∧ gp.siteTypePkey = st.pkey ∧
      gp.name = "HARD0" := by
    unfold findHardPin at hgp
    rw [hst] at hgp
    simp only [Option.bind] at hgp
    have hfs0 := List.find?_some hgp
    exact ⟨List.mem_of_find?_eq_some hgp, of_decide_eq_true hfs0⟩
  have hpkne : vp.pkey ≠ gp.pkey := by
    refine nodup_map_ne hpinN hvpP.1 hgpP.1 ?_
    intro heq
    have hnames : ("HARD1" : String) = "HARD0" := by
      rw [← hvpP.2.2, heq, hgpP.2.2]
    exact absurd hnames (by decide)
  have hconflict : ∀ k,
      (∃ w ∈ db.wires, w.nodePkey = some k ∧ boundToPin db w vp.pkey) →
      ∀ wt ∈ pinWits db gp.pkey, ∀ w' ∈ db.wires,
        ¬ (w'.wireInTilePkey = wt.pkey ∧ w'.nodePkey = some k) := by
    rintro k ⟨w, hw, hwk, wtv, hwtvmem, hwtvp, hwtvpin⟩ wt hwt w' hw'
      ⟨hw'wit, hw'k⟩
    have hwtmem := List.mem_filter.mp hwt
    have hwtpin : wt.sitePinPkey = some gp.pkey :=
      of_decide_eq_true hwtmem.2
    have hwtne : wtv ≠ wt := by
      intro h
      rw [h] at hwtvpin
      rw [hwtvpin] at hwtpin
      exact hpkne (Option.some.inj hwtpin)
    have hwitne : wtv.pkey ≠ wt.pkey :=
      nodup_map_ne hwitN hwtvmem hwtmem.1 hwtne
    have hwne : w ≠ w' := by
      intro h
      rw [h] at hwtvp
      exact hwitne (hwtvp.trans hw'wit)
    have hcnt := hsite k
    unfold nodeSitePinWireCount at hcnt
    have hPw : (decide (w.nodePkey = some k) &&
        db.wireInTiles.any (fun wt => decide (wt.pkey = w.wireInTilePkey ∧
          wt.sitePinPkey ≠ none))) = true := by
      rw [Bool.and_eq_true]
      refine ⟨decide_eq_true hwk, List.any_eq_true.mpr ⟨wtv, hwtvmem,
        decide_eq_true ⟨hwtvp, ?_⟩⟩⟩
      rw [hwtvpin]
      exact Option.some_ne_none _
    have hPw' : (decide (w'.nodePkey = some k) &&
        db.wireInTiles.any (fun wt => decide (wt.pkey = w'.wireInTilePkey ∧
          wt.sitePinPkey ≠ none))) = true := by
      rw [Bool.and_eq_true]
      refine ⟨decide_eq_true hw'k, List.any_eq_true.mpr ⟨wt, hwtmem.1,
        decide_eq_true ⟨hw'wit.symm, ?_⟩⟩⟩
      rw [hwtpin]
      exact Option.some_ne_none _
    have hmw : w ∈ db.wires.filter (fun w =>
        decide (w.nodePkey = some k) &&
          db.wireInTiles.any (fun wt =>
            decide (wt.pkey = w.wireInTilePkey ∧
              wt.sitePinPkey ≠ none))) :=
      List.mem_filter.mpr ⟨hw, hPw⟩
    have hmw' : w' ∈ db.wires.filter (fun w =>
        decide (w.nodePkey = some k) &&
          db.wireInTiles.any (fun wt =>
            decide (wt.pkey = w.wireInTilePkey ∧
              wt.sitePinPkey ≠ none))) :=
      List.mem_filter.mpr ⟨hw', hPw'⟩
    have h2 := two_le_length_of_two_mem hmw hmw' hwne
    rw [List.countP_eq_length_filter] at hcnt
    omega
  refine ⟨?_, ?_, ?_, ?_⟩
  · intro n hn hex
    rw [hdb'] at hn
    refine foldl_setTrack_untouched db.wires gndTrack n.pkey _ _
      (hconflict n.pkey hex) (some vccTrack) ?_ n hn rfl
    obtain ⟨w, hw, hwk, wt, hwtmem, hwtp, hwtpin⟩ := hex
    refine foldl_setTrack_establishes db.wires vccTrack n.pkey _ _
      ⟨wt, ?_, w, hw, hwtp.symm, hwk⟩
    exact List.mem_filter.mpr ⟨hwtmem, decide_eq_true hwtpin⟩
  · intro n hn hex
    rw [hdb'] at hn
    obtain ⟨w, hw, hwk, wt, hwtmem, hwtp, hwtpin⟩ := hex
    refine foldl_setTrack_establishes db.wires gndTrack n.pkey _ _
      ⟨wt, ?_, w, hw, hwtp.symm, hwk⟩ n hn rfl
    exact List.mem_filter.mpr ⟨hwtmem, decide_eq_true hwtpin⟩
  · rw [hdb']
  · rw [hdb']
    show (hardpinNodes db vp gp vccTrack gndTrack).map _ = _
    unfold hardpinNodes
    rw [foldl_setTrack_erase, foldl_setTrack_erase]

/-- Concrete database with a TIEOFF site type, HARD1/HARD0 pins, and one
wire (and node) bound to each. -/
def dbHardpins : Database :=
  { wireInTiles := [⟨10, 1, some 2⟩, ⟨11, 1, some 3⟩]
    pips := []
    wires := [⟨100, 7, 10, some 1⟩, ⟨101, 7, 11, some 2⟩]
    nodes := [⟨1, none, 0, some 100, none⟩, ⟨2, none, 0, some 101, none⟩]
    edgeWithMux := []
    siteTypes := [⟨1, "TIEOFF"⟩]
    sitePins := [⟨2, 1, "HARD1"⟩, ⟨3, 1, "HARD0"⟩]
    tiles := [] }

theorem dbHardpins_site_limit : ∀ k, nodeSitePinWireCount dbHardpins k ≤ 1 := by
  intro k
  by_cases hk1 : k = 1
  · subst hk1
    decide
  · by_cases hk2 : k = 2
    · subst hk2
      decide
    · have hzero : nodeSitePinWireCount dbHardpins k = 0 := by
        refine List.countP_eq_zero.mpr ?_
        intro w hw
        rw [Bool.and_eq_true]
        rintro ⟨hwk, _⟩
        have hsome := of_decide_eq_true hwk
        rcases List.mem_cons.mp hw with rfl | hw'
        · exact hk1 (Option.some.inj hsome).symm
        · rcases List.mem_cons.mp hw' with rfl | hw''
          · exact hk2 (Option.some.inj hsome).symm
          · cases hw''
      rw [hzero]
      exact Nat.zero_le 1

/-- Witness for C7: on `dbHardpins` the HARD1-bound node ends on the power
track. -/
theorem c7_hardpins_to_constant_tracks_witness :
    (Node.mk 1 none 0 (some 100) (some 500)).trackPkey = some 500 :=
  ((c7_hardpins_to_constant_tracks dbHardpins
      ((connectHardpinsToConstantNetwork dbHardpins 500 600).toOption.getD
        dbHardpins)
      500 600 ⟨2, 1, "HARD1"⟩ ⟨3, 1, "HARD0"⟩
      rfl rfl rfl (by decide) (by decide) dbHardpins_site_limit).1
    (Node.mk 1 none 0 (some 100) (some 500)) (by decide)
    ⟨⟨100, 7, 10, some 1⟩, by decide, rfl,
      ⟨10, 1, some 2⟩, by decide, rfl, rfl⟩)
